import Mathlib

/-!
Verification of talk-with-eyes: the gaze-signal conditioning pipeline
(`computeFilteredGazePoint` and `handleGazeData` from the `useEyeTracking`
hook) and the dwell-based zone-selection state machine (`PhoneticWheel.tsx`).

JavaScript numbers are modelled by real numbers; a possibly non-finite
JavaScript number (NaN / ±Infinity) is modelled as `Option ℝ`, `none`
standing for a non-finite value, so `Number.isFinite v` is `v.isSome`.
The embedded filter is the variant of the hook that performs outlier
rejection (`OUTLIER_THRESHOLD_PX = 120`), which is the one the claims cite.

Zone rectangles in the wheel come from the live browser layout
(`getBoundingClientRect`), so the geometric winner of the per-tick zone scan
is passed to the tick function as an input (`candidate`); everything after
that point (cooldown gating, hover bookkeeping, dwell accumulation, commit
semantics) is embedded from the source.
-/

open scoped Classical

noncomputable section

/-! ### Gaze filter: data model -/

/-- One gaze sample / smoothed point, `{x, y, time}` in the source. -/
structure GazePoint where
  x : ℝ
  y : ℝ
  time : ℝ

instance : Inhabited GazePoint := ⟨⟨0, 0, 0⟩⟩

/-- `GAZE_HISTORY_MS = 2000`. -/
def GAZE_HISTORY_MS : ℝ := 2000

/-- `MAX_HISTORY_POINTS = 200`. -/
def MAX_HISTORY_POINTS : ℕ := 200

/-- `FIXATION_WINDOW_MS = 800`. -/
def FIXATION_WINDOW_MS : ℝ := 800

/-- `FIXATION_MIN_DURATION_MS = 250`. -/
def FIXATION_MIN_DURATION_MS : ℝ := 250

/-- `FIXATION_MAX_RADIUS_PX = 45`. -/
def FIXATION_MAX_RADIUS_PX : ℝ := 45

/-- `MIN_FIXATION_SAMPLES = 8`. -/
def MIN_FIXATION_SAMPLES : ℕ := 8

/-- `SMOOTH_MIN_ALPHA = 0.08`. -/
def SMOOTH_MIN_ALPHA : ℝ := 0.08

/-- `SMOOTH_MAX_ALPHA = 0.6`. -/
def SMOOTH_MAX_ALPHA : ℝ := 0.6

/-- `MAX_VELOCITY_PX_PER_S = 1500`. -/
def MAX_VELOCITY_PX_PER_S : ℝ := 1500

/-- `OUTLIER_THRESHOLD_PX = 120`. -/
def OUTLIER_THRESHOLD_PX : ℝ := 120

/-- `clamp(value, min, max) = Math.min(max, Math.max(min, value))`. -/
def clamp (value lo hi : ℝ) : ℝ := min hi (max lo value)

/-- `Math.hypot(dx, dy)`. -/
def hypot (dx dy : ℝ) : ℝ := Real.sqrt (dx ^ 2 + dy ^ 2)

/-- The filter's mutable state: `gazeHistoryRef` and `smoothedPointRef`. -/
structure FilterState where
  history : List GazePoint
  smoothed : Option GazePoint

/-- State after `resetSmoothingState` (session start / calibration reset). -/
def initFilterState : FilterState := ⟨[], none⟩

/-! ### Gaze filter: history maintenance -/

/-- `while (history.length > MAX_HISTORY_POINTS) history.shift()`. -/
def shiftWhileOverCount : List GazePoint → List GazePoint
  | [] => []
  | p :: rest =>
    if rest.length + 1 > MAX_HISTORY_POINTS then shiftWhileOverCount rest else p :: rest

/-- `while (history.length && timestamp - history[0].time > GAZE_HISTORY_MS) history.shift()`. -/
def shiftWhileStale (timestamp : ℝ) : List GazePoint → List GazePoint
  | [] => []
  | p :: rest =>
    if timestamp - p.time > GAZE_HISTORY_MS then shiftWhileStale timestamp rest else p :: rest

/-- The history buffer after `push` and both eviction loops. -/
def updatedHistory (history : List GazePoint) (rawX rawY timestamp : ℝ) : List GazePoint :=
  shiftWhileStale timestamp (shiftWhileOverCount (history ++ [⟨rawX, rawY, timestamp⟩]))

/-- The backwards scan of `history` that collects `windowPoints`, before the
final `reverse`: it walks from the newest sample towards the oldest and stops
at the first sample older than `FIXATION_WINDOW_MS`. -/
def takeWindowRev (timestamp : ℝ) : List GazePoint → List GazePoint
  | [] => []
  | p :: rest =>
    if timestamp - p.time > FIXATION_WINDOW_MS then [] else p :: takeWindowRev timestamp rest

/-- `windowPoints` in chronological order (after `windowPoints.reverse()`). -/
def windowPointsOf (timestamp : ℝ) (history : List GazePoint) : List GazePoint :=
  (takeWindowRev timestamp history.reverse).reverse

/-! ### Gaze filter: fixation detection -/

/-- `weight = Math.exp(-age / 80)` with `age = Math.max(0, timestamp - sample.time)`. -/
def sampleWeight (timestamp : ℝ) (p : GazePoint) : ℝ :=
  Real.exp (-(max 0 (timestamp - p.time)) / 80)

/-- `weightSum` accumulated over the window. -/
def weightSumOf (timestamp : ℝ) (wp : List GazePoint) : ℝ :=
  (wp.map (sampleWeight timestamp)).sum

/-- `weightedX` accumulated over the window. -/
def weightedXOf (timestamp : ℝ) (wp : List GazePoint) : ℝ :=
  (wp.map (fun p => p.x * sampleWeight timestamp p)).sum

/-- `weightedY` accumulated over the window. -/
def weightedYOf (timestamp : ℝ) (wp : List GazePoint) : ℝ :=
  (wp.map (fun p => p.y * sampleWeight timestamp p)).sum

/-- `centroidX = weightedX / weightSum`. -/
def centroidXOf (timestamp : ℝ) (wp : List GazePoint) : ℝ :=
  weightedXOf timestamp wp / weightSumOf timestamp wp

/-- `centroidY = weightedY / weightSum`. -/
def centroidYOf (timestamp : ℝ) (wp : List GazePoint) : ℝ :=
  weightedYOf timestamp wp / weightSumOf timestamp wp

/-- `dispersionAccumulator = Σ (dx*dx + dy*dy)` around the centroid. -/
def dispersionAccOf (timestamp : ℝ) (wp : List GazePoint) : ℝ :=
  (wp.map (fun p =>
    (p.x - centroidXOf timestamp wp) ^ 2 + (p.y - centroidYOf timestamp wp) ^ 2)).sum

/-- `rmsDispersion = Math.sqrt(dispersionAccumulator / windowPoints.length)`. -/
def rmsDispersionOf (timestamp : ℝ) (wp : List GazePoint) : ℝ :=
  Real.sqrt (dispersionAccOf timestamp wp / wp.length)

/-- `fixationDuration`: time spanned by the window (last minus first sample). -/
def fixationDurationOf (wp : List GazePoint) : ℝ :=
  (wp.getLastD ⟨0, 0, 0⟩).time - (wp.headD ⟨0, 0, 0⟩).time

/-- The conjunction of the four nested guards under which the fixation branch
of `computeFilteredGazePoint` produces the function's result:
enough window samples, enough spanned duration, a positive weight sum, and an
RMS dispersion within the fixation radius. -/
def fixationDeclared (timestamp : ℝ) (wp : List GazePoint) : Prop :=
  MIN_FIXATION_SAMPLES ≤ wp.length ∧
  FIXATION_MIN_DURATION_MS ≤ fixationDurationOf wp ∧
  0 < weightSumOf timestamp wp ∧
  rmsDispersionOf timestamp wp ≤ FIXATION_MAX_RADIUS_PX

/-- `filteredFixationPoint`: the centroid, blended with the previous smoothed
point by `stabilityFactor = 0.15` when one exists. -/
def fixationPoint (timestamp : ℝ) (wp : List GazePoint) (smoothed : Option GazePoint) : ℝ × ℝ :=
  match smoothed with
  | some sp =>
      (sp.x + 0.15 * (centroidXOf timestamp wp - sp.x),
       sp.y + 0.15 * (centroidYOf timestamp wp - sp.y))
  | none => (centroidXOf timestamp wp, centroidYOf timestamp wp)

/-! ### Gaze filter: outlier rejection -/

/-- The guard of the outlier-rejection early return: the history is non-empty
and the new raw sample is farther than `OUTLIER_THRESHOLD_PX` from the last
history entry. -/
def outlierRejected (s : FilterState) (rawX rawY : ℝ) : Prop :=
  match s.history.getLast? with
  | some lastPoint => OUTLIER_THRESHOLD_PX < hypot (rawX - lastPoint.x) (rawY - lastPoint.y)
  | none => False

/-- `smoothedPointRef.current || lastPoint`: the value returned when a sample
is rejected as an outlier. -/
def outlierFallback (s : FilterState) : ℝ × ℝ :=
  match s.smoothed with
  | some sp => (sp.x, sp.y)
  | none => ((s.history.getLastD ⟨0, 0, 0⟩).x, (s.history.getLastD ⟨0, 0, 0⟩).y)

/-! ### Gaze filter: adaptive smoothing -/

/-- Index sequence of the moving-average loop
`for (let i = n - 2; i >= Math.max(0, n - 4); i--)` over `recentPoints`
(`n = recentPoints.length`). -/
def maIndices (n : ℕ) : List ℕ :=
  (List.range' (n - 4) (n - 1 - (n - 4))).reverse

/-- The additional moving-average pass applied during fast movements:
starts from the already-filtered point with weight 1 and folds in up to three
earlier recent points with decreasing weights `0.5 / (n - i)`. -/
def movingAverage (recent : List GazePoint) (safeX safeY : ℝ) : ℝ × ℝ :=
  let n := recent.length
  let acc := (maIndices n).foldl
    (fun acc i =>
      match recent[i]? with
      | some pt =>
          (acc.1 + pt.x * (0.5 / ((n : ℝ) - (i : ℝ))),
           acc.2.1 + pt.y * (0.5 / ((n : ℝ) - (i : ℝ))),
           acc.2.2 + 0.5 / ((n : ℝ) - (i : ℝ)))
      | none => acc)
    (safeX, safeY, 1)
  if 0 < acc.2.2 then (acc.1 / acc.2.2, acc.2.1 / acc.2.2) else (safeX, safeY)

/-- The adaptive exponential-smoothing tail of the filter (no fixation was
declared and a previous smoothed point `lf` exists): extreme-saccade snap,
velocity/distance-adaptive alpha blend, and the moving-average pass for fast
movements.  Over ℝ the `Number.isFinite` fallbacks for `filteredX/filteredY`
are the identity, so `safeX/safeY` are the blended values directly. -/
def filterSmooth (history : List GazePoint) (lf : GazePoint) (rawX rawY timestamp : ℝ) :
    FilterState × ℝ × ℝ :=
  let deltaX := rawX - lf.x
  let deltaY := rawY - lf.y
  let dt := max 16 (timestamp - lf.time)
  let distance := hypot deltaX deltaY
  let velocity := distance / dt * 1000
  if FIXATION_MAX_RADIUS_PX * 6 < distance ∧ MAX_VELOCITY_PX_PER_S * 0.8 < velocity then
    (⟨history, some ⟨rawX, rawY, timestamp⟩⟩, rawX, rawY)
  else
    let normalizedVelocity :=
      (clamp velocity 0 MAX_VELOCITY_PX_PER_S / MAX_VELOCITY_PX_PER_S) ^ (1.5 : ℝ)
    let distanceFactor := clamp (distance / 100) 0 1
    let alpha := clamp
      (SMOOTH_MIN_ALPHA +
        (SMOOTH_MAX_ALPHA - SMOOTH_MIN_ALPHA) *
          (0.3 * normalizedVelocity + 0.7 * distanceFactor))
      SMOOTH_MIN_ALPHA SMOOTH_MAX_ALPHA
    let safeX := lf.x + alpha * deltaX
    let safeY := lf.y + alpha * deltaY
    let out :=
      if MAX_VELOCITY_PX_PER_S * 0.3 < velocity then
        let recentPoints := history.drop (history.length - 5)
        if 3 ≤ recentPoints.length then movingAverage recentPoints safeX safeY
        else (safeX, safeY)
      else (safeX, safeY)
    (⟨history, some ⟨out.1, out.2, timestamp⟩⟩, out)

/-- The body of `computeFilteredGazePoint` after the sample was accepted into
history: staleness reset, fixation detection, first-sample seeding, and the
adaptive-smoothing tail, in source order. -/
def filterAccepted (history : List GazePoint) (smoothed : Option GazePoint)
    (rawX rawY timestamp : ℝ) : FilterState × ℝ × ℝ :=
  let wp := windowPointsOf timestamp history
  match smoothed with
  | some lf =>
    if GAZE_HISTORY_MS < timestamp - lf.time then
      (⟨history, some ⟨rawX, rawY, timestamp⟩⟩, rawX, rawY)
    else if fixationDeclared timestamp wp then
      let p := fixationPoint timestamp wp (some lf)
      (⟨history, some ⟨p.1, p.2, timestamp⟩⟩, p)
    else filterSmooth history lf rawX rawY timestamp
  | none =>
    if fixationDeclared timestamp wp then
      let p := fixationPoint timestamp wp none
      (⟨history, some ⟨p.1, p.2, timestamp⟩⟩, p)
    else (⟨history, some ⟨rawX, rawY, timestamp⟩⟩, rawX, rawY)

/-- `computeFilteredGazePoint` on finite inputs: outlier rejection, then
history maintenance, then the accepted-sample pipeline.  Returns the new
filter state together with the emitted `{x, y}`. -/
def computeFilteredGazePoint (s : FilterState) (rawX rawY timestamp : ℝ) :
    FilterState × ℝ × ℝ :=
  if outlierRejected s rawX rawY then (s, outlierFallback s)
  else filterAccepted (updatedHistory s.history rawX rawY timestamp) s.smoothed rawX rawY timestamp

/-- `computeFilteredGazePoint` including the leading
`if (!Number.isFinite(rawX) || !Number.isFinite(rawY)) return {x: rawX, y: rawY}`
guard, with possibly non-finite inputs modelled as `Option ℝ`. -/
def computeFilteredGazePointChecked (s : FilterState) (rawX rawY : Option ℝ) (timestamp : ℝ) :
    FilterState × Option ℝ × Option ℝ :=
  match rawX, rawY with
  | some x, some y =>
      let r := computeFilteredGazePoint s x y timestamp
      (r.1, some r.2.1, some r.2.2)
  | rx, ry => (s, rx, ry)

/-- `handleGazeData`: drops the callback when tracking is manually stopped,
when the prediction is null, or when either coordinate is non-finite;
otherwise runs the filter and publishes the filtered point (the `docX/docY`
and `GazeX/GazeY` fields of the emitted `GazeData`). -/
def handleGazeData (isManuallyStopped : Bool) (prediction : Option (Option ℝ × Option ℝ))
    (s : FilterState) (timestamp : ℝ) : FilterState × Option (Option ℝ × Option ℝ) :=
  if isManuallyStopped then (s, none)
  else
    match prediction with
    | none => (s, none)
    | some (px, py) =>
      match px, py with
      | some x, some y =>
          let r := computeFilteredGazePoint s x y timestamp
          (r.1, some (some r.2.1, some r.2.2))
      | _, _ => (s, none)

/-- Run the filter over a sequence of `(x, y, timestamp)` samples. -/
def runFilter (s : FilterState) : List (ℝ × ℝ × ℝ) → FilterState
  | [] => s
  | (x, y, t) :: rest => runFilter (computeFilteredGazePoint s x y t).1 rest

/-! ### Invariants used by the history-boundedness claim -/

/-- Chronological order between samples. -/
def timeLE (a b : GazePoint) : Prop := a.time ≤ b.time

/-- Non-decreasing timestamps for an input sample sequence. -/
def sampleLE (a b : ℝ × ℝ × ℝ) : Prop := a.2.2 ≤ b.2.2

instance : IsTrans (ℝ × ℝ × ℝ) sampleLE := ⟨fun _ _ _ h h' => le_trans h h'⟩

/-- A concrete burst of nine clustered samples used to exercise the fixation
branch: eight history points at `(100, 0)`, 40 ms apart. -/
def fixationBurst : List GazePoint :=
  [⟨100, 0, 0⟩, ⟨100, 0, 40⟩, ⟨100, 0, 80⟩, ⟨100, 0, 120⟩,
   ⟨100, 0, 160⟩, ⟨100, 0, 200⟩, ⟨100, 0, 240⟩, ⟨100, 0, 280⟩]

/-- History-buffer invariant: bounded count, chronological order, and every
entry within `GAZE_HISTORY_MS` of the last (most recently accepted) entry. -/
def HistoryInv (s : FilterState) : Prop :=
  s.history.length ≤ MAX_HISTORY_POINTS ∧
  s.history.Pairwise timeLE ∧
  ∀ p ∈ s.history, ∀ q, s.history.getLast? = some q → q.time - p.time ≤ GAZE_HISTORY_MS

end

/-! ### Phonetic wheel: data model (`PhoneticWheel.tsx`) -/

/-- `SelectionLevel = 'group' | 'letter'`. -/
inductive SelectionLevel where
  | group
  | letter
deriving DecidableEq

/-- `ILetterZone`. -/
structure LetterZone where
  label : String
  letters : List String
  hint : Option String
deriving DecidableEq

/-- `ISpecialActions`. -/
structure SpecialActions where
  space : String
  delete : String
  submit : String
deriving DecidableEq

/-- `IAlphabet`. -/
structure Alphabet where
  zones : List LetterZone
  specialActions : SpecialActions
  backLabel : String
deriving DecidableEq

/-- `ALPHABETS.english`. -/
def english : Alphabet where
  zones := [
    ⟨"A • B • C • D • 9", ["A", "B", "C", "D", "9"], some "Common starters"⟩,
    ⟨"E • F • G • H • 8", ["E", "F", "G", "H", "8"], some "High-frequency consonants"⟩,
    ⟨"I • J • K • L • 7", ["I", "J", "K", "L", "7"], some "Right-hand letters"⟩,
    ⟨"M • N • O • P • 6", ["M", "N", "O", "P", "6"], some "Mid-word sounds"⟩,
    ⟨"Delete", [], some "Remove the last letter"⟩,
    ⟨"Q • R • S • T • 5 • 4", ["Q", "R", "S", "T", "5", "4"], some "Common endings"⟩,
    ⟨"U • V • W • 0 • 1 • 2 • 3", ["U", "V", "W", "0", "1", "2", "3"],
      some "Vowel sounds & numbers"⟩,
    ⟨"X • Y • Z • . • ? • !", ["X", "Y", "Z", ".", "?", "!"],
      some "Punctuation & rare letters"⟩]
  specialActions := ⟨"Space", "Delete", "Submit"⟩
  backLabel := "Back"

/-- `ALPHABETS.spanish`. -/
def spanish : Alphabet where
  zones := [
    ⟨"A • B • C • CH • 9", ["A", "B", "C", "CH", "9"], some "Inicio frecuente"⟩,
    ⟨"D • E • F • G • 8 • 3", ["D", "E", "F", "G", "8", "3"], some "Consonantes comunes"⟩,
    ⟨"H • I • J • K • 7", ["H", "I", "J", "K", "7"], some "Sonidos suaves"⟩,
    ⟨"L • LL • M • N • Ñ • 6", ["L", "LL", "M", "N", "Ñ", "6"], some "Letras dobles"⟩,
    ⟨"Borrar", [], some "Eliminar la última letra"⟩,
    ⟨"O • P • Q • R • RR • 5 • 4", ["O", "P", "Q", "R", "RR", "5", "4"],
      some "Sílabas comunes"⟩,
    ⟨"S • T • U • V • 0 • 1 • 2", ["S", "T", "U", "V", "0", "1", "2"],
      some "Finales frecuentes"⟩,
    ⟨"W • X • Y • Z • . • ? • !", ["W", "X", "Y", "Z", ".", "?", "!"],
      some "Puntuación y letras raras"⟩]
  specialActions := ⟨"Espacio", "Borrar", "Enviar"⟩
  backLabel := "Atrás"

/-- `CENTER_INDEX = 8`. -/
def CENTER_INDEX : ℕ := 8

/-- `SOUTH_INDEX = 4`. -/
def SOUTH_INDEX : ℕ := 4

/-- `LETTER_ZONE_ORDER = [7, 0, 1, 2, 3, 5, 6]`. -/
def letterZoneOrder : List ℕ := [7, 0, 1, 2, 3, 5, 6]

/-- `DWELL_TIME = 1500` (ms). -/
def DWELL_TIME : ℤ := 1500

/-- `COOLDOWN_TIME = 1000` (ms). -/
def COOLDOWN_TIME : ℤ := 1000

/-- The component state relevant to selection: `selectionLevel`, `hoveredZone`,
`selectedZone`, `dwellStartTime`, `dwellProgress`, `cooldownUntil`
(`relativeGaze` is presentation-only and omitted). -/
structure WheelState where
  selectionLevel : SelectionLevel
  hoveredZone : Option ℕ
  selectedZone : Option ℕ
  dwellStartTime : Option ℤ
  dwellProgress : ℚ
  cooldownUntil : ℤ
deriving DecidableEq

/-- Initial component state. -/
def initWheelState : WheelState := ⟨.group, none, none, none, 0, 0⟩

/-- Selection events delivered to the parent: `onSelection(sound)` / `onSubmit()`. -/
inductive WheelEvent where
  | selection (sound : String)
  | submit
deriving DecidableEq

/-- `activeLetters`: the letters of the currently selected group
(`zone?.letters ?? []`). -/
def activeLettersOf (alph : Alphabet) (selectedZone : Option ℕ) : List String :=
  match selectedZone with
  | none => []
  | some z =>
    match alph.zones[z]? with
    | some zone => zone.letters
    | none => []

/-- `letterAssignments`: the letters (at most `LETTER_ZONE_ORDER.length` of
them) paired with their zone indices in the fixed visiting order. -/
def letterAssignments (letters : List String) : List (ℕ × String) :=
  letterZoneOrder.zip (letters.take letterZoneOrder.length)

/-- `letterAssignments.get(zoneIndex)`. -/
def letterFor (letters : List String) (zoneIndex : ℕ) : Option String :=
  (letterAssignments letters).lookup zoneIndex

/-- `isZoneInteractive`. -/
def isZoneInteractive (alph : Alphabet) (level : SelectionLevel) (selectedZone : Option ℕ)
    (index : ℕ) : Bool :=
  if index = CENTER_INDEX ∨ index = SOUTH_INDEX then true
  else
    match level with
    | .group =>
      match alph.zones[index]? with
      | some zone => !zone.letters.isEmpty
      | none => false
    | .letter => (letterFor (activeLettersOf alph selectedZone) index).isSome

/-- `commit()`: start the cooldown and clear hover/dwell state. -/
def commitState (s : WheelState) (now : ℤ) : WheelState :=
  { s with cooldownUntil := now + COOLDOWN_TIME, hoveredZone := none,
           dwellStartTime := none, dwellProgress := 0 }

/-- `resetSelection()`. -/
def resetSelection (s : WheelState) : WheelState :=
  { s with selectionLevel := .group, selectedZone := none }

/-- Result of one activation / tick: the next state, the selection events
fired during it, and (as instrumentation) the zone that was committed when
`commit()` ran. -/
structure ActivationResult where
  state : WheelState
  events : List WheelEvent
  committedZone : Option ℕ
deriving DecidableEq

/-- `handleZoneActivation`. -/
def handleZoneActivation (alph : Alphabet) (s : WheelState) (now : ℤ)
    (zoneIndex : Option ℕ) : ActivationResult :=
  match zoneIndex with
  | none => ⟨s, [], none⟩
  | some z =>
    match s.selectionLevel with
    | .group =>
      if z = CENTER_INDEX then
        ⟨commitState (resetSelection s) now, [.submit], some z⟩
      else if z = SOUTH_INDEX then
        ⟨commitState s now, [.selection "DELETE"], some z⟩
      else
        match alph.zones[z]? with
        | some zone =>
          if zone.letters.isEmpty then ⟨s, [], none⟩
          else
            ⟨commitState { s with selectedZone := some z, selectionLevel := .letter } now,
              [], some z⟩
        | none => ⟨s, [], none⟩
    | .letter =>
      if z = CENTER_INDEX then
        ⟨commitState (resetSelection s) now, [.selection " "], some z⟩
      else if z = SOUTH_INDEX then
        ⟨commitState (resetSelection s) now, [], some z⟩
      else
        match letterFor (activeLettersOf alph s.selectedZone) z with
        | some letter => ⟨commitState (resetSelection s) now, [.selection letter], some z⟩
        | none => ⟨s, [], none⟩

/-- Clearing of hover/dwell state done by the gaze effect's early returns. -/
def clearHover (s : WheelState) : WheelState :=
  { s with hoveredZone := none, dwellStartTime := none, dwellProgress := 0 }

/-- One run of the gaze-position effect.  `candidate` is the winning zone of
the geometric scan over the interactive zones' layout rectangles (including
the snap/exit hysteresis), which depends on the live DOM layout and is
therefore an input here; `inContainer` is the container-bounds test. -/
def gazeTick (s : WheelState) (now : ℤ) (isTracking : Bool) (inContainer : Bool)
    (candidate : Option ℕ) : WheelState :=
  if !isTracking then clearHover s
  else if now < s.cooldownUntil then clearHover s
  else if !inContainer then clearHover s
  else
    match candidate with
    | some c =>
      if s.hoveredZone ≠ some c then
        { s with hoveredZone := some c, dwellStartTime := some now, dwellProgress := 0 }
      else if s.dwellStartTime = none then
        { s with dwellStartTime := some now }
      else s
    | none => clearHover s

/-- One run of the dwell animation-frame tick.  When `hoveredZone` or
`dwellStartTime` is null the dwell effect only resets progress and schedules
no tick; within cooldown the tick resets progress; at or past `DWELL_TIME`
elapsed it activates the hovered zone; otherwise it updates progress. -/
def dwellTick (alph : Alphabet) (s : WheelState) (now : ℤ) : ActivationResult :=
  match s.hoveredZone, s.dwellStartTime with
  | some z, some start =>
    if now < s.cooldownUntil then ⟨{ s with dwellProgress := 0 }, [], none⟩
    else if DWELL_TIME ≤ now - start then handleZoneActivation alph s now (some z)
    else ⟨{ s with dwellProgress := min 1 (((now - start : ℤ) : ℚ) / ((DWELL_TIME : ℤ) : ℚ)) },
      [], none⟩
  | _, _ => ⟨{ s with dwellProgress := 0 }, [], none⟩

/-- A scheduler input: a gaze-effect run or a dwell animation frame. -/
inductive WheelInput where
  | gaze (isTracking inContainer : Bool) (candidate : Option ℕ)
  | dwell
deriving DecidableEq

/-- Dispatch one timestamped input. -/
def wheelStep (alph : Alphabet) (s : WheelState) (t : ℤ) : WheelInput → ActivationResult
  | .gaze tr inC cand => ⟨gazeTick s t tr inC cand, [], none⟩
  | .dwell => dwellTick alph s t

/-- Run a timestamped input trace; collects the fired events and the
committed activations `(time, zone)`. -/
def runWheel (alph : Alphabet) (s : WheelState) :
    List (ℤ × WheelInput) → WheelState × List (ℤ × WheelEvent) × List (ℤ × ℕ)
  | [] => (s, [], [])
  | (t, inp) :: rest =>
    let r := wheelStep alph s t inp
    let tail := runWheel alph r.state rest
    (tail.1, r.events.map (fun e => (t, e)) ++ tail.2.1,
      (match r.committedZone with
       | some z => [(t, z)]
       | none => []) ++ tail.2.2)

/-- The implicit invariant of the letter level: a non-null selected zone that
denotes an existing, populated letter group. -/
def LetterLevelInv (alph : Alphabet) (s : WheelState) : Prop :=
  s.selectionLevel = .letter →
    ∃ z zone, s.selectedZone = some z ∧ alph.zones[z]? = some zone ∧ zone.letters ≠ []

/-! ### Branch-evaluation lemmas for the filter -/

theorem computeFilteredGazePoint_of_rejected (s : FilterState) (x y t : ℝ)
    (h : outlierRejected s x y) :
    computeFilteredGazePoint s x y t = (s, outlierFallback s) := by
  simp [computeFilteredGazePoint, h]

theorem computeFilteredGazePoint_of_accepted (s : FilterState) (x y t : ℝ)
    (h : ¬ outlierRejected s x y) :
    computeFilteredGazePoint s x y t =
      filterAccepted (updatedHistory s.history x y t) s.smoothed x y t := by
  simp [computeFilteredGazePoint, h]

theorem filterAccepted_stale (hist : List GazePoint) (lf : GazePoint) (x y t : ℝ)
    (h : GAZE_HISTORY_MS < t - lf.time) :
    filterAccepted hist (some lf) x y t = (⟨hist, some ⟨x, y, t⟩⟩, x, y) := by
  simp [filterAccepted, h]

theorem filterAccepted_fix (hist : List GazePoint) (lf : GazePoint) (x y t : ℝ)
    (hst : ¬ GAZE_HISTORY_MS < t - lf.time)
    (hfix : fixationDeclared t (windowPointsOf t hist)) :
    filterAccepted hist (some lf) x y t =
      (⟨hist, some ⟨(fixationPoint t (windowPointsOf t hist) (some lf)).1,
                    (fixationPoint t (windowPointsOf t hist) (some lf)).2, t⟩⟩,
       fixationPoint t (windowPointsOf t hist) (some lf)) := by
  simp [filterAccepted, hst, hfix]

theorem filterAccepted_smooth (hist : List GazePoint) (lf : GazePoint) (x y t : ℝ)
    (hst : ¬ GAZE_HISTORY_MS < t - lf.time)
    (hfix : ¬ fixationDeclared t (windowPointsOf t hist)) :
    filterAccepted hist (some lf) x y t = filterSmooth hist lf x y t := by
  simp [filterAccepted, hst, hfix]

theorem filterAccepted_seed (hist : List GazePoint) (x y t : ℝ)
    (hfix : ¬ fixationDeclared t (windowPointsOf t hist)) :
    filterAccepted hist none x y t = (⟨hist, some ⟨x, y, t⟩⟩, x, y) := by
  simp [filterAccepted, hfix]

theorem filterSmooth_snap (hist : List GazePoint) (lf : GazePoint) (x y t : ℝ)
    (hd : FIXATION_MAX_RADIUS_PX * 6 < hypot (x - lf.x) (y - lf.y))
    (hv : MAX_VELOCITY_PX_PER_S * 0.8 <
      hypot (x - lf.x) (y - lf.y) / max 16 (t - lf.time) * 1000) :
    filterSmooth hist lf x y t = (⟨hist, some ⟨x, y, t⟩⟩, x, y) := by
  rw [filterSmooth]
  simp only []
  rw [if_pos ⟨hd, hv⟩]

theorem filterAccepted_state (hist : List GazePoint) (sm : Option GazePoint) (x y t : ℝ) :
    (filterAccepted hist sm x y t).1.history = hist ∧
    (filterAccepted hist sm x y t).1.smoothed =
      some ⟨(filterAccepted hist sm x y t).2.1, (filterAccepted hist sm x y t).2.2, t⟩ := by
  cases sm <;> rw [filterAccepted] <;> simp only [] <;> split <;> try exact ⟨rfl, rfl⟩
  split <;> try exact ⟨rfl, rfl⟩
  rw [filterSmooth]
  simp only []
  split <;> exact ⟨rfl, rfl⟩

theorem hypot_axis (d : ℝ) (hd : 0 ≤ d) : hypot d 0 = d := by
  rw [hypot]
  norm_num
  exact Real.sqrt_sq hd

/-- Claim C4: with non-empty history, a raw sample farther than
`OUTLIER_THRESHOLD_PX` from the last history entry is rejected: the state
(history and smoothed-point record) is unchanged and the output is the last
smoothed point (or the last raw history point when none exists); a second
consecutive over-threshold sample is rejected again with the same output. -/
theorem outlier_rejection_idempotent (s : FilterState) (x₁ y₁ t₁ x₂ y₂ t₂ : ℝ)
    (h1 : outlierRejected s x₁ y₁) (h2 : outlierRejected s x₂ y₂) :
    computeFilteredGazePoint s x₁ y₁ t₁ = (s, outlierFallback s) ∧
    computeFilteredGazePoint (computeFilteredGazePoint s x₁ y₁ t₁).1 x₂ y₂ t₂ =
      (s, outlierFallback s) := by
  have e1 := computeFilteredGazePoint_of_rejected s x₁ y₁ t₁ h1
  refine ⟨e1, ?_⟩
  rw [e1]
  exact computeFilteredGazePoint_of_rejected s x₂ y₂ t₂ h2

theorem outlier_rejection_idempotent_witness :
    outlierRejected (⟨[⟨0, 0, 0⟩], none⟩ : FilterState) 200 0 ∧
    outlierRejected (⟨[⟨0, 0, 0⟩], none⟩ : FilterState) 300 0 ∧
    computeFilteredGazePoint (⟨[⟨0, 0, 0⟩], none⟩ : FilterState) 200 0 10 =
      ((⟨[⟨0, 0, 0⟩], none⟩ : FilterState), outlierFallback ⟨[⟨0, 0, 0⟩], none⟩) ∧
    computeFilteredGazePoint
        (computeFilteredGazePoint (⟨[⟨0, 0, 0⟩], none⟩ : FilterState) 200 0 10).1 300 0 20 =
      ((⟨[⟨0, 0, 0⟩], none⟩ : FilterState), outlierFallback ⟨[⟨0, 0, 0⟩], none⟩) := by
  have e200 : hypot (200 - 0 : ℝ) (0 - 0 : ℝ) = 200 := by
    norm_num
    exact hypot_axis 200 (by norm_num)
  have e300 : hypot (300 - 0 : ℝ) (0 - 0 : ℝ) = 300 := by
    norm_num
    exact hypot_axis 300 (by norm_num)
  have h1 : outlierRejected (⟨[⟨0, 0, 0⟩], none⟩ : FilterState) 200 0 := by
    show OUTLIER_THRESHOLD_PX < hypot (200 - 0) (0 - 0)
    rw [e200, OUTLIER_THRESHOLD_PX]
    norm_num
  have h2 : outlierRejected (⟨[⟨0, 0, 0⟩], none⟩ : FilterState) 300 0 := by
    show OUTLIER_THRESHOLD_PX < hypot (300 - 0) (0 - 0)
    rw [e300, OUTLIER_THRESHOLD_PX]
    norm_num
  have h := outlier_rejection_idempotent ⟨[⟨0, 0, 0⟩], none⟩ 200 0 10 300 0 20 h1 h2
  exact ⟨h1, h2, h.1, h.2⟩

/-- Claim C1 counterexample: a state with history `[(0,0)@0]` and previous
smoothed point `(0,0)@0`, fed the single sample `(300, 0)@100`.  The sample's
distance from the previous smoothed point is `300 > 6 * FIXATION_MAX_RADIUS_PX`
and its velocity is `3000 > 0.8 * MAX_VELOCITY_PX_PER_S`, yet the output is the
prior smoothed point `(0, 0)`, not the raw point `(300, 0)`: the
outlier-rejection step (threshold 120 px from the last history entry) fires
before the extreme-saccade snap can be reached. -/
theorem saccade_snap_counterexample :
    (⟨[⟨0, 0, 0⟩], some ⟨0, 0, 0⟩⟩ : FilterState).smoothed = some ⟨0, 0, 0⟩ ∧
    FIXATION_MAX_RADIUS_PX * 6 < hypot (300 - 0) (0 - 0) ∧
    MAX_VELOCITY_PX_PER_S * 0.8 < hypot (300 - 0) (0 - 0) / max 16 (100 - 0) * 1000 ∧
    (computeFilteredGazePoint (⟨[⟨0, 0, 0⟩], some ⟨0, 0, 0⟩⟩ : FilterState) 300 0 100).2
      = (0, 0) ∧
    ((0 : ℝ), (0 : ℝ)) ≠ ((300 : ℝ), (0 : ℝ)) := by
  have e300 : hypot (300 - 0 : ℝ) (0 - 0 : ℝ) = 300 := by
    norm_num
    exact hypot_axis 300 (by norm_num)
  have hmax : max (16 : ℝ) (100 - 0) = 100 := by
    rw [show (100 : ℝ) - 0 = 100 by norm_num]
    exact max_eq_right (by norm_num)
  have hrej : outlierRejected (⟨[⟨0, 0, 0⟩], some ⟨0, 0, 0⟩⟩ : FilterState) 300 0 := by
    show OUTLIER_THRESHOLD_PX < hypot (300 - 0) (0 - 0)
    rw [e300, OUTLIER_THRESHOLD_PX]
    norm_num
  refine ⟨rfl, ?_, ?_, ?_, ?_⟩
  · rw [e300, FIXATION_MAX_RADIUS_PX]
    norm_num
  · rw [e300, hmax, MAX_VELOCITY_PX_PER_S]
    norm_num
  · rw [computeFilteredGazePoint_of_rejected _ _ _ _ hrej]
    rfl
  · intro h
    have := congrArg Prod.fst h
    norm_num at this

/-- Claim C1 (amended): for a state with a previous smoothed point, a sample
that is not outlier-rejected and on which no fixation is declared for the
updated window, whose distance from the previous smoothed point exceeds
`FIXATION_MAX_RADIUS_PX * 6` at a velocity above
`0.8 * MAX_VELOCITY_PX_PER_S`, yields exactly the raw point. -/
theorem saccade_snap_amended (s : FilterState) (lf : GazePoint) (x y t : ℝ)
    (hsm : s.smoothed = some lf)
    (hacc : ¬ outlierRejected s x y)
    (hfix : ¬ fixationDeclared t (windowPointsOf t (updatedHistory s.history x y t)))
    (hdist : FIXATION_MAX_RADIUS_PX * 6 < hypot (x - lf.x) (y - lf.y))
    (hvel : MAX_VELOCITY_PX_PER_S * 0.8 <
      hypot (x - lf.x) (y - lf.y) / max 16 (t - lf.time) * 1000) :
    (computeFilteredGazePoint s x y t).2 = (x, y) := by
  rw [computeFilteredGazePoint_of_accepted s x y t hacc, hsm]
  by_cases hst : GAZE_HISTORY_MS < t - lf.time
  · rw [filterAccepted_stale _ _ _ _ _ hst]
  · rw [filterAccepted_smooth _ _ _ _ _ hst hfix, filterSmooth_snap _ _ _ _ _ hdist hvel]

theorem saccade_snap_amended_witness :
    (⟨[], some ⟨0, 0, 0⟩⟩ : FilterState).smoothed = some ⟨0, 0, 0⟩ ∧
    ¬ outlierRejected (⟨[], some ⟨0, 0, 0⟩⟩ : FilterState) 300 0 ∧
    ¬ fixationDeclared 100 (windowPointsOf 100 (updatedHistory [] 300 0 100)) ∧
    FIXATION_MAX_RADIUS_PX * 6 <
      hypot (300 - (⟨0, 0, 0⟩ : GazePoint).x) (0 - (⟨0, 0, 0⟩ : GazePoint).y) ∧
    MAX_VELOCITY_PX_PER_S * 0.8 <
      hypot (300 - (⟨0, 0, 0⟩ : GazePoint).x) (0 - (⟨0, 0, 0⟩ : GazePoint).y) /
        max 16 (100 - (⟨0, 0, 0⟩ : GazePoint).time) * 1000 ∧
    (computeFilteredGazePoint (⟨[], some ⟨0, 0, 0⟩⟩ : FilterState) 300 0 100).2 = (300, 0) := by
  have e300 : hypot (300 - 0 : ℝ) (0 - 0 : ℝ) = 300 := by
    norm_num
    exact hypot_axis 300 (by norm_num)
  have hmax : max (16 : ℝ) (100 - 0) = 100 := by
    rw [show (100 : ℝ) - 0 = 100 by norm_num]
    exact max_eq_right (by norm_num)
  have hacc : ¬ outlierRejected (⟨[], some ⟨0, 0, 0⟩⟩ : FilterState) 300 0 := by
    simp [outlierRejected]
  have hupd : updatedHistory [] 300 0 100 = [⟨300, 0, 100⟩] := by
    simp [updatedHistory, shiftWhileOverCount, shiftWhileStale, MAX_HISTORY_POINTS,
      GAZE_HISTORY_MS]
  have hwp : windowPointsOf 100 (updatedHistory [] 300 0 100) = [⟨300, 0, 100⟩] := by
    rw [hupd]
    simp [windowPointsOf, takeWindowRev, FIXATION_WINDOW_MS]
  have hfix : ¬ fixationDeclared 100 (windowPointsOf 100 (updatedHistory [] 300 0 100)) := by
    rw [hwp]
    intro h
    have := h.1
    simp [MIN_FIXATION_SAMPLES] at this
  have hdist : FIXATION_MAX_RADIUS_PX * 6 <
      hypot (300 - (⟨0, 0, 0⟩ : GazePoint).x) (0 - (⟨0, 0, 0⟩ : GazePoint).y) := by
    show FIXATION_MAX_RADIUS_PX * 6 < hypot (300 - 0) (0 - 0)
    rw [e300, FIXATION_MAX_RADIUS_PX]
    norm_num
  have hvel : MAX_VELOCITY_PX_PER_S * 0.8 <
      hypot (300 - (⟨0, 0, 0⟩ : GazePoint).x) (0 - (⟨0, 0, 0⟩ : GazePoint).y) /
        max 16 (100 - (⟨0, 0, 0⟩ : GazePoint).time) * 1000 := by
    show MAX_VELOCITY_PX_PER_S * 0.8 < hypot (300 - 0) (0 - 0) / max 16 (100 - 0) * 1000
    rw [e300, hmax, MAX_VELOCITY_PX_PER_S]
    norm_num
  exact ⟨rfl, hacc, hfix, hdist, hvel,
    saccade_snap_amended ⟨[], some ⟨0, 0, 0⟩⟩ ⟨0, 0, 0⟩ 300 0 100 rfl hacc hfix hdist hvel⟩

/-- Claim C8: the filter always returns an `{x, y}` pair (by type), and the
smoothed-point record after the call equals the returned value stamped with
the current sample's timestamp, except in the outlier-rejection case (state
unchanged) and the non-finite pass-through guard (state unchanged, raw values
passed through). -/
theorem smoothed_record_updated (s : FilterState) (x y t : ℝ) :
    (outlierRejected s x y → (computeFilteredGazePoint s x y t).1 = s) ∧
    (¬ outlierRejected s x y →
      (computeFilteredGazePoint s x y t).1.smoothed =
        some ⟨(computeFilteredGazePoint s x y t).2.1,
              (computeFilteredGazePoint s x y t).2.2, t⟩) ∧
    ∀ rx ry : Option ℝ, (rx = none ∨ ry = none) →
      computeFilteredGazePointChecked s rx ry t = (s, rx, ry) := by
  refine ⟨fun h => by rw [computeFilteredGazePoint_of_rejected s x y t h], fun h => ?_,
    fun rx ry hnf => ?_⟩
  · rw [computeFilteredGazePoint_of_accepted s x y t h]
    exact (filterAccepted_state _ _ _ _ _).2
  · rcases hnf with rfl | rfl
    · rfl
    · cases rx <;> rfl

theorem smoothed_record_updated_witness :
    ¬ outlierRejected initFilterState 1 2 ∧
    (computeFilteredGazePoint initFilterState 1 2 3).1.smoothed =
      some ⟨(computeFilteredGazePoint initFilterState 1 2 3).2.1,
            (computeFilteredGazePoint initFilterState 1 2 3).2.2, 3⟩ ∧
    computeFilteredGazePointChecked initFilterState none (some 2) 3 =
      (initFilterState, none, some 2) := by
  have hacc : ¬ outlierRejected initFilterState 1 2 := by
    simp [outlierRejected, initFilterState]
  exact ⟨hacc, (smoothed_record_updated initFilterState 1 2 3).2.1 hacc,
    (smoothed_record_updated initFilterState 1 2 3).2.2 none (some 2) (Or.inl rfl)⟩

/-- Claim C9 (implicit): `handleGazeData` discards a null prediction and any
prediction with a non-finite coordinate before invoking the filter, so every
gaze point it publishes comes from the filter on finite inputs and both of
its coordinates are finite — the filter's non-finite pass-through branch is
unreachable from the tracker path. -/
theorem published_gaze_finite (stopped : Bool) (pred : Option (Option ℝ × Option ℝ))
    (s : FilterState) (t : ℝ) (q : Option ℝ × Option ℝ)
    (h : (handleGazeData stopped pred s t).2 = some q) :
    (∃ x y : ℝ, pred = some (some x, some y) ∧
      q = (some (computeFilteredGazePoint s x y t).2.1,
           some (computeFilteredGazePoint s x y t).2.2)) ∧
    q.1.isSome ∧ q.2.isSome := by
  cases stopped
  · cases pred with
    | none => simp [handleGazeData] at h
    | some p =>
      obtain ⟨px, py⟩ := p
      cases px with
      | none => simp [handleGazeData] at h
      | some a =>
        cases py with
        | none => simp [handleGazeData] at h
        | some b =>
          simp only [handleGazeData, Bool.false_eq_true, if_false, Option.some.injEq] at h
          refine ⟨⟨a, b, rfl, h.symm⟩, ?_, ?_⟩ <;> rw [← h] <;> rfl
  · simp [handleGazeData] at h

theorem published_gaze_finite_witness :
    (∃ x y : ℝ, (some (some 1, some 2) : Option (Option ℝ × Option ℝ)) =
        some (some x, some y) ∧
      (some (computeFilteredGazePoint initFilterState 1 2 3).2.1,
       some (computeFilteredGazePoint initFilterState 1 2 3).2.2) =
        (some (computeFilteredGazePoint initFilterState x y 3).2.1,
         some (computeFilteredGazePoint initFilterState x y 3).2.2)) ∧
    (some (computeFilteredGazePoint initFilterState 1 2 3).2.1).isSome ∧
    (some (computeFilteredGazePoint initFilterState 1 2 3).2.2).isSome :=
  published_gaze_finite false (some (some 1, some 2)) initFilterState 3 _ rfl

/-! ### Supporting lemmas for fixation computations -/

theorem weightSumOf_cons (t : ℝ) (p : GazePoint) (rest : List GazePoint) :
    weightSumOf t (p :: rest) = sampleWeight t p + weightSumOf t rest := by
  simp [weightSumOf]

theorem weightedXOf_cons (t : ℝ) (p : GazePoint) (rest : List GazePoint) :
    weightedXOf t (p :: rest) = p.x * sampleWeight t p + weightedXOf t rest := by
  simp [weightedXOf]

theorem weightedYOf_cons (t : ℝ) (p : GazePoint) (rest : List GazePoint) :
    weightedYOf t (p :: rest) = p.y * sampleWeight t p + weightedYOf t rest := by
  simp [weightedYOf]

theorem weightSumOf_nonneg (t : ℝ) (wp : List GazePoint) : 0 ≤ weightSumOf t wp := by
  rw [weightSumOf]
  apply List.sum_nonneg
  intro v hv
  simp only [List.mem_map] at hv
  obtain ⟨p, _, rfl⟩ := hv
  exact le_of_lt (Real.exp_pos _)

theorem weightSumOf_pos (t : ℝ) (wp : List GazePoint) (h : wp ≠ []) :
    0 < weightSumOf t wp := by
  cases wp with
  | nil => exact absurd rfl h
  | cons p rest =>
    rw [weightSumOf_cons]
    exact add_pos_of_pos_of_nonneg (Real.exp_pos _) (weightSumOf_nonneg t rest)

theorem weightedXOf_const (t c : ℝ) (wp : List GazePoint) (hx : ∀ p ∈ wp, p.x = c) :
    weightedXOf t wp = c * weightSumOf t wp := by
  induction wp with
  | nil => simp [weightedXOf, weightSumOf]
  | cons p rest ih =>
    rw [weightedXOf_cons, weightSumOf_cons, hx p (List.mem_cons_self p rest),
      ih (fun q hq => hx q (List.mem_cons_of_mem p hq))]
    ring

theorem weightedYOf_const (t d : ℝ) (wp : List GazePoint) (hy : ∀ p ∈ wp, p.y = d) :
    weightedYOf t wp = d * weightSumOf t wp := by
  induction wp with
  | nil => simp [weightedYOf, weightSumOf]
  | cons p rest ih =>
    rw [weightedYOf_cons, weightSumOf_cons, hy p (List.mem_cons_self p rest),
      ih (fun q hq => hy q (List.mem_cons_of_mem p hq))]
    ring

theorem centroidXOf_const (t c : ℝ) (wp : List GazePoint) (hx : ∀ p ∈ wp, p.x = c)
    (hw : 0 < weightSumOf t wp) : centroidXOf t wp = c := by
  rw [centroidXOf, weightedXOf_const t c wp hx, mul_div_assoc, div_self (ne_of_gt hw), mul_one]

theorem centroidYOf_const (t d : ℝ) (wp : List GazePoint) (hy : ∀ p ∈ wp, p.y = d)
    (hw : 0 < weightSumOf t wp) : centroidYOf t wp = d := by
  rw [centroidYOf, weightedYOf_const t d wp hy, mul_div_assoc, div_self (ne_of_gt hw), mul_one]

theorem dispersionAccOf_const (t c d : ℝ) (wp : List GazePoint)
    (hxy : ∀ p ∈ wp, p.x = c ∧ p.y = d)
    (hcx : centroidXOf t wp = c) (hcy : centroidYOf t wp = d) :
    dispersionAccOf t wp = 0 := by
  rw [dispersionAccOf]
  apply List.sum_eq_zero
  intro v hv
  simp only [List.mem_map] at hv
  obtain ⟨p, hp, rfl⟩ := hv
  rw [(hxy p hp).1, (hxy p hp).2, hcx, hcy]
  ring

theorem rmsDispersionOf_eq_zero (t : ℝ) (wp : List GazePoint)
    (h : dispersionAccOf t wp = 0) : rmsDispersionOf t wp = 0 := by
  rw [rmsDispersionOf, h, zero_div, Real.sqrt_zero]

theorem shiftWhileOverCount_of_le (l : List GazePoint) (h : l.length ≤ MAX_HISTORY_POINTS) :
    shiftWhileOverCount l = l := by
  cases l with
  | nil => rfl
  | cons p rest =>
    have h' : ¬ rest.length + 1 > MAX_HISTORY_POINTS := by
      simp only [List.length_cons] at h
      omega
    simp only [shiftWhileOverCount, if_neg h']

theorem shiftWhileStale_fresh (t : ℝ) (p : GazePoint) (rest : List GazePoint)
    (h : ¬ t - p.time > GAZE_HISTORY_MS) :
    shiftWhileStale t (p :: rest) = p :: rest := by
  simp only [shiftWhileStale, if_neg h]

theorem takeWindowRev_of_fresh (t : ℝ) (l : List GazePoint)
    (h : ∀ p ∈ l, ¬ t - p.time > FIXATION_WINDOW_MS) :
    takeWindowRev t l = l := by
  induction l with
  | nil => rfl
  | cons p rest ih =>
    rw [takeWindowRev, if_neg (h p (List.mem_cons_self p rest)),
      ih (fun q hq => h q (List.mem_cons_of_mem p hq))]

theorem windowPointsOf_of_fresh (t : ℝ) (l : List GazePoint)
    (h : ∀ p ∈ l, ¬ t - p.time > FIXATION_WINDOW_MS) :
    windowPointsOf t l = l := by
  rw [windowPointsOf, takeWindowRev_of_fresh t l.reverse
    (fun p hp => h p (List.mem_reverse.mp hp)), List.reverse_reverse]

theorem hypot_abs (d : ℝ) : hypot d 0 = |d| := by
  rw [hypot]
  norm_num
  exact Real.sqrt_sq_eq_abs d

theorem fixation_output_blend (s : FilterState) (lf : GazePoint) (x y t : ℝ)
    (hsm : s.smoothed = some lf)
    (hacc : ¬ outlierRejected s x y)
    (hst : ¬ GAZE_HISTORY_MS < t - lf.time)
    (hfix : fixationDeclared t (windowPointsOf t (updatedHistory s.history x y t))) :
    (computeFilteredGazePoint s x y t).2 =
      (lf.x + 0.15 *
        (centroidXOf t (windowPointsOf t (updatedHistory s.history x y t)) - lf.x),
       lf.y + 0.15 *
        (centroidYOf t (windowPointsOf t (updatedHistory s.history x y t)) - lf.y)) := by
  rw [computeFilteredGazePoint_of_accepted s x y t hacc, hsm,
    filterAccepted_fix _ _ _ _ _ hst hfix]
  rfl


theorem fixationBurst_notRejected :
    ¬ outlierRejected (⟨fixationBurst, some ⟨0, 0, 280⟩⟩ : FilterState) 100 0 := by
  show ¬ OUTLIER_THRESHOLD_PX < hypot (100 - 100) (0 - 0)
  have h0 : hypot (100 - 100 : ℝ) (0 - 0 : ℝ) = 0 := by
    norm_num
    exact hypot_axis 0 le_rfl
  rw [h0, OUTLIER_THRESHOLD_PX]
  norm_num

theorem fixationBurst_updated :
    updatedHistory fixationBurst 100 0 320 = fixationBurst ++ [⟨100, 0, 320⟩] := by
  rw [updatedHistory, shiftWhileOverCount_of_le _ (by simp [fixationBurst, MAX_HISTORY_POINTS])]
  have : fixationBurst ++ [(⟨100, 0, 320⟩ : GazePoint)] =
      ⟨100, 0, 0⟩ :: [⟨100, 0, 40⟩, ⟨100, 0, 80⟩, ⟨100, 0, 120⟩,
        ⟨100, 0, 160⟩, ⟨100, 0, 200⟩, ⟨100, 0, 240⟩, ⟨100, 0, 280⟩, ⟨100, 0, 320⟩] := rfl
  rw [this, shiftWhileStale_fresh]
  rw [GAZE_HISTORY_MS]
  norm_num

theorem fixationBurst_windowPoints :
    windowPointsOf 320 (fixationBurst ++ [⟨100, 0, 320⟩]) = fixationBurst ++ [⟨100, 0, 320⟩] := by
  apply windowPointsOf_of_fresh
  intro p hp
  rw [FIXATION_WINDOW_MS]
  fin_cases hp <;> norm_num

theorem fixationBurst_const :
    ∀ p ∈ fixationBurst ++ [(⟨100, 0, 320⟩ : GazePoint)], p.x = 100 ∧ p.y = 0 := by
  intro p hp
  fin_cases hp <;> exact ⟨rfl, rfl⟩

theorem fixationBurst_weightSum_pos :
    0 < weightSumOf 320 (fixationBurst ++ [⟨100, 0, 320⟩]) :=
  weightSumOf_pos _ _ (by simp [fixationBurst])

theorem fixationBurst_centroidX :
    centroidXOf 320 (fixationBurst ++ [⟨100, 0, 320⟩]) = 100 :=
  centroidXOf_const _ _ _ (fun p hp => (fixationBurst_const p hp).1) fixationBurst_weightSum_pos

theorem fixationBurst_centroidY :
    centroidYOf 320 (fixationBurst ++ [⟨100, 0, 320⟩]) = 0 :=
  centroidYOf_const _ _ _ (fun p hp => (fixationBurst_const p hp).2) fixationBurst_weightSum_pos

theorem fixationBurst_declared :
    fixationDeclared 320 (fixationBurst ++ [⟨100, 0, 320⟩]) := by
  refine ⟨?_, ?_, fixationBurst_weightSum_pos, ?_⟩
  · simp [fixationBurst, MIN_FIXATION_SAMPLES]
  · show FIXATION_MIN_DURATION_MS ≤ (320 : ℝ) - 0
    rw [FIXATION_MIN_DURATION_MS]
    norm_num
  · rw [rmsDispersionOf_eq_zero _ _ (dispersionAccOf_const _ 100 0 _ fixationBurst_const
      fixationBurst_centroidX fixationBurst_centroidY), FIXATION_MAX_RADIUS_PX]
    norm_num

theorem fixationBurst_fixWindow :
    fixationDeclared 320 (windowPointsOf 320 (updatedHistory fixationBurst 100 0 320)) := by
  rw [fixationBurst_updated, fixationBurst_windowPoints]
  exact fixationBurst_declared

/-- Claim C3 counterexample: nine clustered samples at `(100, 0)` spanning
320 ms with previous smoothed point `(0, 0)@280` declare a fixation at
`t = 320`; the emitted output is `(15, 0)`, i.e. the previous smoothed point
moved only 15% of the way to the centroid `(100, 0)`: the output is 85 px from
the centroid but only 15 px from the previous smoothed point, so the blend is
weighted toward the previous smoothed point, not toward the new centroid as
the claim states. -/
theorem fixation_blend_counterexample :
    (⟨fixationBurst, some ⟨0, 0, 280⟩⟩ : FilterState).smoothed = some ⟨0, 0, 280⟩ ∧
    fixationDeclared 320 (windowPointsOf 320 (updatedHistory fixationBurst 100 0 320)) ∧
    centroidXOf 320 (windowPointsOf 320 (updatedHistory fixationBurst 100 0 320)) = 100 ∧
    centroidYOf 320 (windowPointsOf 320 (updatedHistory fixationBurst 100 0 320)) = 0 ∧
    (computeFilteredGazePoint (⟨fixationBurst, some ⟨0, 0, 280⟩⟩ : FilterState) 100 0 320).2
      = (15, 0) ∧
    hypot (15 - 100) (0 - 0) > hypot (15 - 0) (0 - 0) := by
  have hst : ¬ GAZE_HISTORY_MS < (320 : ℝ) - (⟨0, 0, 280⟩ : GazePoint).time := by
    show ¬ GAZE_HISTORY_MS < (320 : ℝ) - 280
    rw [GAZE_HISTORY_MS]
    norm_num
  have hout := fixation_output_blend ⟨fixationBurst, some ⟨0, 0, 280⟩⟩ ⟨0, 0, 280⟩ 100 0 320
    rfl fixationBurst_notRejected hst fixationBurst_fixWindow
  refine ⟨rfl, fixationBurst_fixWindow, ?_, ?_, ?_, ?_⟩
  · rw [fixationBurst_updated, fixationBurst_windowPoints]
    exact fixationBurst_centroidX
  · rw [fixationBurst_updated, fixationBurst_windowPoints]
    exact fixationBurst_centroidY
  · rw [hout]
    show ((0 : ℝ) + 0.15 * (centroidXOf 320 (windowPointsOf 320
        (updatedHistory fixationBurst 100 0 320)) - 0),
      (0 : ℝ) + 0.15 * (centroidYOf 320 (windowPointsOf 320
        (updatedHistory fixationBurst 100 0 320)) - 0)) = (15, 0)
    rw [fixationBurst_updated, fixationBurst_windowPoints, fixationBurst_centroidX,
      fixationBurst_centroidY]
    norm_num
  · rw [show (15 : ℝ) - 100 = -85 by norm_num, show (15 : ℝ) - 0 = 15 by norm_num,
      show (0 : ℝ) - 0 = 0 by norm_num, hypot_abs, hypot_abs]
    norm_num

/-- Claim C3 (amended): whenever a fixation is declared and a previous
smoothed point exists (and the sample was accepted and the smoothed point is
not stale), the emitted output is the previous smoothed point blended with
the age-weighted centroid by the fixed stability factor 0.15 — the blend is
weighted toward the previous smoothed point (the centroid receives weight
0.15, the previous point 0.85), not toward the new centroid. -/
theorem fixation_blend_amended (s : FilterState) (lf : GazePoint) (x y t : ℝ)
    (hsm : s.smoothed = some lf)
    (hacc : ¬ outlierRejected s x y)
    (hst : ¬ GAZE_HISTORY_MS < t - lf.time)
    (hfix : fixationDeclared t (windowPointsOf t (updatedHistory s.history x y t))) :
    (computeFilteredGazePoint s x y t).2 =
      (lf.x + 0.15 *
        (centroidXOf t (windowPointsOf t (updatedHistory s.history x y t)) - lf.x),
       lf.y + 0.15 *
        (centroidYOf t (windowPointsOf t (updatedHistory s.history x y t)) - lf.y)) :=
  fixation_output_blend s lf x y t hsm hacc hst hfix

theorem fixation_blend_amended_witness :
    (⟨fixationBurst, some ⟨0, 0, 280⟩⟩ : FilterState).smoothed = some ⟨0, 0, 280⟩ ∧
    ¬ outlierRejected (⟨fixationBurst, some ⟨0, 0, 280⟩⟩ : FilterState) 100 0 ∧
    ¬ GAZE_HISTORY_MS < (320 : ℝ) - (⟨0, 0, 280⟩ : GazePoint).time ∧
    fixationDeclared 320 (windowPointsOf 320 (updatedHistory fixationBurst 100 0 320)) ∧
    (computeFilteredGazePoint (⟨fixationBurst, some ⟨0, 0, 280⟩⟩ : FilterState) 100 0 320).2 =
      ((⟨0, 0, 280⟩ : GazePoint).x + 0.15 *
        (centroidXOf 320 (windowPointsOf 320 (updatedHistory fixationBurst 100 0 320)) -
          (⟨0, 0, 280⟩ : GazePoint).x),
       (⟨0, 0, 280⟩ : GazePoint).y + 0.15 *
        (centroidYOf 320 (windowPointsOf 320 (updatedHistory fixationBurst 100 0 320)) -
          (⟨0, 0, 280⟩ : GazePoint).y)) := by
  have hst : ¬ GAZE_HISTORY_MS < (320 : ℝ) - (⟨0, 0, 280⟩ : GazePoint).time := by
    show ¬ GAZE_HISTORY_MS < (320 : ℝ) - 280
    rw [GAZE_HISTORY_MS]
    norm_num
  exact ⟨rfl, fixationBurst_notRejected, hst, fixationBurst_fixWindow,
    fixation_blend_amended ⟨fixationBurst, some ⟨0, 0, 280⟩⟩ ⟨0, 0, 280⟩ 100 0 320
      rfl fixationBurst_notRejected hst fixationBurst_fixWindow⟩

/-! ### History eviction lemmas -/

theorem shiftWhileOverCount_suffix (l : List GazePoint) : shiftWhileOverCount l <:+ l := by
  induction l with
  | nil => exact List.nil_suffix
  | cons p rest ih =>
    by_cases h : rest.length + 1 > MAX_HISTORY_POINTS
    · simp only [shiftWhileOverCount, if_pos h]
      exact ih.trans (List.suffix_cons p rest)
    · simp only [shiftWhileOverCount, if_neg h]
      exact List.suffix_refl _

theorem shiftWhileOverCount_length (l : List GazePoint) :
    (shiftWhileOverCount l).length = min l.length MAX_HISTORY_POINTS := by
  induction l with
  | nil => simp [shiftWhileOverCount]
  | cons p rest ih =>
    by_cases h : rest.length + 1 > MAX_HISTORY_POINTS
    · simp only [shiftWhileOverCount, if_pos h, ih, List.length_cons]
      omega
    · simp only [shiftWhileOverCount, if_neg h, List.length_cons]
      omega

theorem shiftWhileStale_suffix (t : ℝ) (l : List GazePoint) : shiftWhileStale t l <:+ l := by
  induction l with
  | nil => exact List.nil_suffix
  | cons p rest ih =>
    by_cases h : t - p.time > GAZE_HISTORY_MS
    · simp only [shiftWhileStale, if_pos h]
      exact ih.trans (List.suffix_cons p rest)
    · simp only [shiftWhileStale, if_neg h]
      exact List.suffix_refl _

theorem shiftWhileStale_head_fresh (t : ℝ) (l : List GazePoint) (q : GazePoint)
    (hq : (shiftWhileStale t l).head? = some q) : t - q.time ≤ GAZE_HISTORY_MS := by
  induction l with
  | nil => simp [shiftWhileStale] at hq
  | cons p rest ih =>
    by_cases h : t - p.time > GAZE_HISTORY_MS
    · simp only [shiftWhileStale, if_pos h] at hq
      exact ih hq
    · simp only [shiftWhileStale, if_neg h, List.head?_cons, Option.some.injEq] at hq
      subst hq
      exact le_of_not_lt h

theorem shiftWhileStale_getLast (t : ℝ) (l : List GazePoint) (q : GazePoint)
    (hl : l.getLast? = some q) (hq : t - q.time ≤ GAZE_HISTORY_MS) :
    shiftWhileStale t l ≠ [] ∧ (shiftWhileStale t l).getLast? = some q := by
  induction l with
  | nil => simp at hl
  | cons p rest ih =>
    by_cases h : t - p.time > GAZE_HISTORY_MS
    · cases rest with
      | nil =>
        simp only [List.getLast?_singleton, Option.some.injEq] at hl
        subst hl
        exact absurd hq (not_le.mpr h)
      | cons r rs =>
        simp only [shiftWhileStale, if_pos h]
        exact ih (by rw [← List.getLast?_cons_cons]; exact hl)
    · rw [shiftWhileStale_fresh t p rest h]
      exact ⟨List.cons_ne_nil p rest, hl⟩

theorem updatedHistory_inv (hist : List GazePoint) (x y t : ℝ)
    (hpw : hist.Pairwise timeLE) (hb : ∀ p ∈ hist, p.time ≤ t) :
    (updatedHistory hist x y t).length ≤ MAX_HISTORY_POINTS ∧
    (updatedHistory hist x y t).Pairwise timeLE ∧
    (updatedHistory hist x y t).getLast? = some ⟨x, y, t⟩ ∧
    (∀ p ∈ updatedHistory hist x y t, p.time ≤ t) ∧
    (∀ p ∈ updatedHistory hist x y t, t - p.time ≤ GAZE_HISTORY_MS) := by
  have hLpw : (hist ++ [(⟨x, y, t⟩ : GazePoint)]).Pairwise timeLE := by
    rw [List.pairwise_append]
    refine ⟨hpw, List.pairwise_singleton _ _, fun a ha b hb' => ?_⟩
    simp only [List.mem_singleton] at hb'
    subst hb'
    exact hb a ha
  have hCsuf := shiftWhileOverCount_suffix (hist ++ [(⟨x, y, t⟩ : GazePoint)])
  have hCne : shiftWhileOverCount (hist ++ [(⟨x, y, t⟩ : GazePoint)]) ≠ [] := by
    intro hemp
    have hlen := shiftWhileOverCount_length (hist ++ [(⟨x, y, t⟩ : GazePoint)])
    rw [hemp] at hlen
    simp only [List.length_nil] at hlen
    have hpos : 0 < min (hist ++ [(⟨x, y, t⟩ : GazePoint)]).length MAX_HISTORY_POINTS :=
      lt_min (by simp) (by rw [MAX_HISTORY_POINTS]; norm_num)
    rw [← hlen] at hpos
    exact lt_irrefl 0 hpos
  have hClast : (shiftWhileOverCount (hist ++ [(⟨x, y, t⟩ : GazePoint)])).getLast? =
      some ⟨x, y, t⟩ := by
    obtain ⟨pre, hpre⟩ := hCsuf
    have hkeep : (pre ++ shiftWhileOverCount (hist ++ [(⟨x, y, t⟩ : GazePoint)])).getLast? =
        (shiftWhileOverCount (hist ++ [(⟨x, y, t⟩ : GazePoint)])).getLast? :=
      List.getLast?_append_of_ne_nil pre hCne
    rw [← hkeep, hpre, List.getLast?_concat]
  have hstale := shiftWhileStale_getLast t _ _ hClast
    (by show t - t ≤ GAZE_HISTORY_MS; rw [sub_self, GAZE_HISTORY_MS]; norm_num)
  have hUsufC := shiftWhileStale_suffix t (shiftWhileOverCount (hist ++ [(⟨x, y, t⟩ : GazePoint)]))
  have hUsub : (updatedHistory hist x y t).Sublist (hist ++ [(⟨x, y, t⟩ : GazePoint)]) :=
    (hUsufC.trans hCsuf).sublist
  have hUpw : (updatedHistory hist x y t).Pairwise timeLE := hLpw.sublist hUsub
  have hUb : ∀ p ∈ updatedHistory hist x y t, p.time ≤ t := by
    intro p hp
    have := hUsub.subset hp
    rw [List.mem_append] at this
    rcases this with hmem | hmem
    · exact hb p hmem
    · simp only [List.mem_singleton] at hmem
      subst hmem
      exact le_refl _
  refine ⟨?_, hUpw, hstale.2, hUb, ?_⟩
  · calc (updatedHistory hist x y t).length
        ≤ (shiftWhileOverCount (hist ++ [(⟨x, y, t⟩ : GazePoint)])).length := hUsufC.length_le
      _ = min (hist ++ [(⟨x, y, t⟩ : GazePoint)]).length MAX_HISTORY_POINTS :=
          shiftWhileOverCount_length _
      _ ≤ MAX_HISTORY_POINTS := min_le_right _ _
  · intro p hp
    rcases hU : updatedHistory hist x y t with _ | ⟨u, us⟩
    · rw [hU] at hp
      simp at hp
    · have hhead : t - u.time ≤ GAZE_HISTORY_MS := by
        apply shiftWhileStale_head_fresh t (shiftWhileOverCount (hist ++ [(⟨x, y, t⟩ : GazePoint)]))
        show (shiftWhileStale t _).head? = some u
        rw [← updatedHistory]
        rw [hU]
        rfl
      rw [hU] at hp hUpw
      rcases List.mem_cons.mp hp with rfl | hmem
      · exact hhead
      · have hle : u.time ≤ p.time := (List.pairwise_cons.mp hUpw).1 p hmem
        have : t - p.time ≤ t - u.time := by linarith
        exact le_trans this hhead

theorem step_inv (s : FilterState) (x y t : ℝ) (hinv : HistoryInv s)
    (hb : ∀ p ∈ s.history, p.time ≤ t) :
    HistoryInv (computeFilteredGazePoint s x y t).1 ∧
    ∀ p ∈ (computeFilteredGazePoint s x y t).1.history, p.time ≤ t := by
  by_cases hrej : outlierRejected s x y
  · rw [computeFilteredGazePoint_of_rejected s x y t hrej]
    exact ⟨hinv, hb⟩
  · rw [computeFilteredGazePoint_of_accepted s x y t hrej]
    have hh := (filterAccepted_state (updatedHistory s.history x y t) s.smoothed x y t).1
    have hu := updatedHistory_inv s.history x y t hinv.2.1 hb
    constructor
    · unfold HistoryInv
      rw [hh]
      refine ⟨hu.1, hu.2.1, ?_⟩
      intro p hp q hq
      rw [hu.2.2.1, Option.some.injEq] at hq
      subst hq
      exact hu.2.2.2.2 p hp
    · rw [hh]
      exact hu.2.2.2.1

theorem runFilter_inv (samples : List (ℝ × ℝ × ℝ)) (s : FilterState)
    (hinv : HistoryInv s)
    (hb : ∀ p ∈ s.history, ∀ q ∈ samples, p.time ≤ q.2.2)
    (hpw : samples.Pairwise sampleLE) :
    HistoryInv (runFilter s samples) := by
  induction samples generalizing s with
  | nil => exact hinv
  | cons smp rest ih =>
    obtain ⟨x, y, t⟩ := smp
    rw [runFilter]
    have hbt : ∀ p ∈ s.history, p.time ≤ t := fun p hp =>
      hb p hp (x, y, t) (List.mem_cons_self _ _)
    have hstep := step_inv s x y t hinv hbt
    apply ih _ hstep.1 ?_ (List.pairwise_cons.mp hpw).2
    intro p hp q hq
    exact le_trans (hstep.2 p hp) ((List.pairwise_cons.mp hpw).1 q hq)

/-- Claim C5: running the filter from the reset state over any sample
sequence with non-decreasing timestamps leaves the history buffer within both
bounds after every call: at most `MAX_HISTORY_POINTS` entries, and every entry
(in particular the oldest) within `GAZE_HISTORY_MS` of the last history entry,
which is the most recently accepted sample (carrying its timestamp). -/
theorem history_bounds (samples : List (ℝ × ℝ × ℝ))
    (hmono : List.Chain' sampleLE samples) :
    (runFilter initFilterState samples).history.length ≤ MAX_HISTORY_POINTS ∧
    ∀ p ∈ (runFilter initFilterState samples).history,
      ∀ q, (runFilter initFilterState samples).history.getLast? = some q →
        q.time - p.time ≤ GAZE_HISTORY_MS := by
  have hinv : HistoryInv (runFilter initFilterState samples) := by
    apply runFilter_inv samples initFilterState
    · exact ⟨by simp [initFilterState, MAX_HISTORY_POINTS], List.Pairwise.nil, by
        intro p hp
        simp [initFilterState] at hp⟩
    · intro p hp
      simp [initFilterState] at hp
    · exact List.chain'_iff_pairwise.mp hmono
  exact ⟨hinv.1, hinv.2.2⟩

theorem history_bounds_witness :
    List.Chain' sampleLE [(5, 6, 0), (7, 8, 50)] ∧
    ((runFilter initFilterState [(5, 6, 0), (7, 8, 50)]).history.length ≤ MAX_HISTORY_POINTS ∧
     ∀ p ∈ (runFilter initFilterState [(5, 6, 0), (7, 8, 50)]).history,
       ∀ q, (runFilter initFilterState [(5, 6, 0), (7, 8, 50)]).history.getLast? = some q →
         q.time - p.time ≤ GAZE_HISTORY_MS) := by
  have hc : List.Chain' sampleLE [((5 : ℝ), (6 : ℝ), (0 : ℝ)), (7, 8, 50)] := by
    rw [List.chain'_cons]
    exact ⟨by show (0 : ℝ) ≤ 50; norm_num, List.chain'_singleton _⟩
  exact ⟨hc, history_bounds [(5, 6, 0), (7, 8, 50)] hc⟩

/-! ### Wheel: commit and cooldown lemmas -/

theorem handleZoneActivation_shape (alph : Alphabet) (s : WheelState) (now : ℤ)
    (zi : Option ℕ) :
    ((handleZoneActivation alph s now zi).committedZone = none ∧
      (handleZoneActivation alph s now zi).state = s) ∨
    ((handleZoneActivation alph s now zi).committedZone = zi ∧
      (handleZoneActivation alph s now zi).state.cooldownUntil = now + COOLDOWN_TIME ∧
      (handleZoneActivation alph s now zi).state.hoveredZone = none ∧
      (handleZoneActivation alph s now zi).state.dwellStartTime = none) := by
  rcases zi with _ | z
  · exact Or.inl ⟨rfl, rfl⟩
  · cases hsl : s.selectionLevel
    · by_cases hz8 : z = CENTER_INDEX
      · subst hz8
        right
        simp [handleZoneActivation, hsl, commitState]
      · by_cases hz4 : z = SOUTH_INDEX
        · subst hz4
          right
          simp [handleZoneActivation, hsl, commitState,
            show SOUTH_INDEX ≠ CENTER_INDEX by rw [SOUTH_INDEX, CENTER_INDEX]; norm_num]
        · rcases hzz : alph.zones[z]? with _ | zone
          · left
            simp [handleZoneActivation, hsl, hz8, hz4, hzz]
          · by_cases hemp : zone.letters.isEmpty
            · left
              simp [handleZoneActivation, hsl, hz8, hz4, hzz, hemp]
            · right
              simp [handleZoneActivation, hsl, hz8, hz4, hzz, hemp, commitState]
    · by_cases hz8 : z = CENTER_INDEX
      · subst hz8
        right
        simp [handleZoneActivation, hsl, commitState]
      · by_cases hz4 : z = SOUTH_INDEX
        · subst hz4
          right
          simp [handleZoneActivation, hsl, commitState,
            show SOUTH_INDEX ≠ CENTER_INDEX by rw [SOUTH_INDEX, CENTER_INDEX]; norm_num]
        · rcases hlf : letterFor (activeLettersOf alph s.selectedZone) z with _ | letter
          · left
            simp [handleZoneActivation, hsl, hz8, hz4, hlf]
          · right
            simp [handleZoneActivation, hsl, hz8, hz4, hlf, commitState]

theorem handleZoneActivation_cooldown (alph : Alphabet) (s : WheelState) (now : ℤ)
    (zi : Option ℕ) (z : ℕ)
    (h : (handleZoneActivation alph s now zi).committedZone = some z) :
    (handleZoneActivation alph s now zi).state.cooldownUntil = now + COOLDOWN_TIME := by
  rcases handleZoneActivation_shape alph s now zi with ⟨hn, _⟩ | ⟨_, hc, _, _⟩
  · rw [hn] at h
    exact absurd h (by simp)
  · exact hc

theorem gazeTick_cooldown (s : WheelState) (now : ℤ) (tr inC : Bool) (cand : Option ℕ) :
    (gazeTick s now tr inC cand).cooldownUntil = s.cooldownUntil := by
  unfold gazeTick
  repeat' split
  all_goals rfl

theorem dwellTick_in_cooldown (alph : Alphabet) (s : WheelState) (t : ℤ)
    (h : t < s.cooldownUntil) :
    dwellTick alph s t = ⟨{ s with dwellProgress := 0 }, [], none⟩ := by
  rcases hh : s.hoveredZone with _ | z <;> rcases hd : s.dwellStartTime with _ | st <;>
    simp [dwellTick, hh, hd, h]

theorem runWheel_cooldown (alph : Alphabet) (trace : List (ℤ × WheelInput)) (s : WheelState)
    (hts : ∀ ti ∈ trace, ti.1 < s.cooldownUntil) :
    (runWheel alph s trace).2.1 = [] ∧ (runWheel alph s trace).2.2 = [] ∧
    (runWheel alph s trace).1.cooldownUntil = s.cooldownUntil := by
  induction trace generalizing s with
  | nil => exact ⟨rfl, rfl, rfl⟩
  | cons ti rest ih =>
    obtain ⟨t, inp⟩ := ti
    have ht : t < s.cooldownUntil := hts (t, inp) (List.mem_cons_self _ _)
    cases inp with
    | gaze tr inC cand =>
      have hrest := ih (gazeTick s t tr inC cand) (by
        intro q hq
        rw [gazeTick_cooldown]
        exact hts q (List.mem_cons_of_mem _ hq))
      simp only [runWheel, wheelStep]
      refine ⟨?_, ?_, ?_⟩
      · simpa using hrest.1
      · simpa using hrest.2.1
      · rw [hrest.2.2, gazeTick_cooldown]
    | dwell =>
      rw [show (runWheel alph s ((t, WheelInput.dwell) :: rest)) =
        (let r := wheelStep alph s t .dwell
         let tail := runWheel alph r.state rest
         (tail.1, r.events.map (fun e => (t, e)) ++ tail.2.1,
          (match r.committedZone with
           | some z => [(t, z)]
           | none => []) ++ tail.2.2)) from rfl]
      rw [show wheelStep alph s t .dwell = dwellTick alph s t from rfl,
        dwellTick_in_cooldown alph s t ht]
      have hrest := ih { s with dwellProgress := 0 } (by
        intro q hq
        exact hts q (List.mem_cons_of_mem _ hq))
      simp only []
      refine ⟨?_, ?_, ?_⟩
      · simpa using hrest.1
      · simpa using hrest.2.1
      · exact hrest.2.2

/-- Claim C2: after any dwell-driven commit at time `t`, running any input
trace whose tick times all lie before `t + COOLDOWN_TIME` (the pointer may
re-enter any zone) fires no selection event and performs no commit: every
gaze tick inside the cooldown clears hover and dwell state, and every dwell
tick inside the cooldown only resets progress. -/
theorem cooldown_exclusivity (alph : Alphabet) (s : WheelState) (t : ℤ) (z : ℕ)
    (hcommit : (dwellTick alph s t).committedZone = some z)
    (trace : List (ℤ × WheelInput))
    (hts : ∀ ti ∈ trace, ti.1 < t + COOLDOWN_TIME) :
    (runWheel alph (dwellTick alph s t).state trace).2.1 = [] ∧
    (runWheel alph (dwellTick alph s t).state trace).2.2 = [] := by
  have hcd : (dwellTick alph s t).state.cooldownUntil = t + COOLDOWN_TIME := by
    rcases hh : s.hoveredZone with _ | w <;> rcases hd : s.dwellStartTime with _ | st <;>
      simp only [dwellTick, hh, hd] at hcommit ⊢
    · simp at hcommit
    · simp at hcommit
    · simp at hcommit
    · by_cases h1 : t < s.cooldownUntil
      · simp [h1] at hcommit
      · by_cases h2 : DWELL_TIME ≤ t - st
        · simp only [if_neg h1, if_pos h2] at hcommit ⊢
          exact handleZoneActivation_cooldown alph s t (some w) z hcommit
        · simp [h1, h2] at hcommit
  have h := runWheel_cooldown alph trace (dwellTick alph s t).state (by
    intro q hq
    rw [hcd]
    exact hts q hq)
  exact ⟨h.1, h.2.1⟩

theorem cooldown_exclusivity_witness :
    (dwellTick english ⟨.group, some 4, none, some 0, 0, 0⟩ 1500).committedZone = some 4 ∧
    (∀ ti ∈ ([(1600, .gaze true true (some 4)), (2400, .dwell)] : List (ℤ × WheelInput)),
      ti.1 < 1500 + COOLDOWN_TIME) ∧
    (runWheel english (dwellTick english ⟨.group, some 4, none, some 0, 0, 0⟩ 1500).state
      [(1600, .gaze true true (some 4)), (2400, .dwell)]).2.1 = [] ∧
    (runWheel english (dwellTick english ⟨.group, some 4, none, some 0, 0, 0⟩ 1500).state
      [(1600, .gaze true true (some 4)), (2400, .dwell)]).2.2 = [] := by
  have hcommit : (dwellTick english ⟨.group, some 4, none, some 0, 0, 0⟩ 1500).committedZone =
      some 4 := by decide
  have hts : ∀ ti ∈ ([(1600, .gaze true true (some 4)), (2400, .dwell)] :
      List (ℤ × WheelInput)), ti.1 < 1500 + COOLDOWN_TIME := by decide
  have h := cooldown_exclusivity english ⟨.group, some 4, none, some 0, 0, 0⟩ 1500 4 hcommit
    [(1600, .gaze true true (some 4)), (2400, .dwell)] hts
  exact ⟨hcommit, hts, h.1, h.2⟩

theorem handleZoneActivation_interactive (alph : Alphabet) (s : WheelState) (now : ℤ) (z : ℕ)
    (h : isZoneInteractive alph s.selectionLevel s.selectedZone z = true) :
    (handleZoneActivation alph s now (some z)).committedZone = some z ∧
    (handleZoneActivation alph s now (some z)).state.hoveredZone = none ∧
    (handleZoneActivation alph s now (some z)).state.dwellStartTime = none ∧
    (handleZoneActivation alph s now (some z)).state.cooldownUntil = now + COOLDOWN_TIME := by
  by_cases hz8 : z = CENTER_INDEX
  · subst hz8
    cases hsl : s.selectionLevel <;> simp [handleZoneActivation, hsl, commitState]
  · by_cases hz4 : z = SOUTH_INDEX
    · subst hz4
      cases hsl : s.selectionLevel <;>
        simp [handleZoneActivation, hsl, commitState,
          show SOUTH_INDEX ≠ CENTER_INDEX by rw [SOUTH_INDEX, CENTER_INDEX]; norm_num]
    · rw [isZoneInteractive.eq_def, if_neg (not_or.mpr ⟨hz8, hz4⟩)] at h
      cases hsl : s.selectionLevel <;> rw [hsl] at h
      · rcases hzz : alph.zones[z]? with _ | zone
        · rw [hzz] at h
          simp at h
        · rw [hzz] at h
          simp only [Bool.not_eq_true'] at h
          simp [handleZoneActivation, hsl, hz8, hz4, hzz, commitState, h]
      · rcases hlf : letterFor (activeLettersOf alph s.selectedZone) z with _ | letter
        · rw [hlf] at h
          simp at h
        · simp [handleZoneActivation, hsl, hz8, hz4, hlf, commitState]

/-- Claim C7: if a zone `z`, interactive at the current level, is hovered with
dwell start `d0` and no cooldown is pending, and every tick of the trace lies
in the window `[d0, d0 + DWELL_TIME]` with every gaze tick still resolving to
`z` (tracking on, pointer in bounds — continuous hover), then provided the
trace contains a dwell tick at `d0 + DWELL_TIME`, exactly one commit is
performed — for `z`, at `d0 + DWELL_TIME` — never zero and never two. -/
theorem dwell_commits_exactly_once (alph : Alphabet) (s : WheelState) (z : ℕ) (d0 : ℤ)
    (trace : List (ℤ × WheelInput))
    (hhov : s.hoveredZone = some z)
    (hds : s.dwellStartTime = some d0)
    (hint : isZoneInteractive alph s.selectionLevel s.selectedZone z = true)
    (hcd : s.cooldownUntil ≤ d0)
    (hlo : ∀ ti ∈ trace, d0 ≤ ti.1)
    (hhi : ∀ ti ∈ trace, ti.1 ≤ d0 + DWELL_TIME)
    (hgaze : ∀ ti ∈ trace, ∀ tr inC cand, ti.2 = WheelInput.gaze tr inC cand →
      tr = true ∧ inC = true ∧ cand = some z)
    (hreach : ∃ ti ∈ trace, ti.2 = WheelInput.dwell ∧ ti.1 = d0 + DWELL_TIME) :
    (runWheel alph s trace).2.2 = [(d0 + DWELL_TIME, z)] := by
  induction trace generalizing s with
  | nil =>
    obtain ⟨ti, hti, _⟩ := hreach
    exact absurd hti (List.not_mem_nil ti)
  | cons ti rest ih =>
    obtain ⟨t, inp⟩ := ti
    have ht0 : d0 ≤ t := hlo (t, inp) (List.mem_cons_self _ _)
    have hnc : ¬ t < s.cooldownUntil := not_lt.mpr (le_trans hcd ht0)
    cases inp with
    | gaze tr inC cand =>
      obtain ⟨rfl, rfl, rfl⟩ :=
        hgaze (t, .gaze tr inC cand) (List.mem_cons_self _ _) tr inC cand rfl
      have hstep : gazeTick s t true true (some z) = s := by
        simp [gazeTick, hhov, hds, hnc]
      have hreach' : ∃ ti ∈ rest, ti.2 = WheelInput.dwell ∧ ti.1 = d0 + DWELL_TIME := by
        obtain ⟨w, hw, hwd, hwt⟩ := hreach
        rcases List.mem_cons.mp hw with rfl | hwmem
        · simp at hwd
        · exact ⟨w, hwmem, hwd, hwt⟩
      simp only [runWheel, wheelStep, hstep, List.map_nil, List.nil_append]
      exact ih s hhov hds hint hcd
        (fun q hq => hlo q (List.mem_cons_of_mem _ hq))
        (fun q hq => hhi q (List.mem_cons_of_mem _ hq))
        (fun q hq => hgaze q (List.mem_cons_of_mem _ hq))
        hreach'
    | dwell =>
      have heq : (runWheel alph s ((t, WheelInput.dwell) :: rest)).2.2 =
          (match (dwellTick alph s t).committedZone with
           | some zz => [(t, zz)]
           | none => []) ++ (runWheel alph (dwellTick alph s t).state rest).2.2 := rfl
      by_cases hthr : DWELL_TIME ≤ t - d0
      · have ht : t = d0 + DWELL_TIME :=
          le_antisymm (hhi (t, .dwell) (List.mem_cons_self _ _)) (by omega)
        have hstep : dwellTick alph s t = handleZoneActivation alph s t (some z) := by
          simp [dwellTick, hhov, hds, hnc, hthr]
        have hact := handleZoneActivation_interactive alph s t z hint
        have hcool := runWheel_cooldown alph rest
          (handleZoneActivation alph s t (some z)).state (by
            intro q hq
            rw [hact.2.2.2]
            have hqt := hhi q (List.mem_cons_of_mem _ hq)
            rw [COOLDOWN_TIME]
            omega)
        rw [heq, hstep, hact.1, hcool.2.1, List.append_nil, ht]
      · have hcz : (dwellTick alph s t).committedZone = none ∧
            (dwellTick alph s t).state.hoveredZone = s.hoveredZone ∧
            (dwellTick alph s t).state.dwellStartTime = s.dwellStartTime ∧
            (dwellTick alph s t).state.selectionLevel = s.selectionLevel ∧
            (dwellTick alph s t).state.selectedZone = s.selectedZone ∧
            (dwellTick alph s t).state.cooldownUntil = s.cooldownUntil := by
          simp [dwellTick, hhov, hds, hnc, hthr]
        have hreach' : ∃ ti ∈ rest, ti.2 = WheelInput.dwell ∧ ti.1 = d0 + DWELL_TIME := by
          obtain ⟨w, hw, hwd, hwt⟩ := hreach
          rcases List.mem_cons.mp hw with rfl | hwmem
          · exact absurd hwt (by omega)
          · exact ⟨w, hwmem, hwd, hwt⟩
        rw [heq]
        simp only [hcz.1, List.nil_append]
        exact ih (dwellTick alph s t).state
          (hcz.2.1.trans hhov) (hcz.2.2.1.trans hds)
          (by rw [hcz.2.2.2.1, hcz.2.2.2.2.1]; exact hint)
          (by rw [hcz.2.2.2.2.2]; exact hcd)
          (fun q hq => hlo q (List.mem_cons_of_mem _ hq))
          (fun q hq => hhi q (List.mem_cons_of_mem _ hq))
          (fun q hq => hgaze q (List.mem_cons_of_mem _ hq))
          hreach'

theorem dwell_commits_exactly_once_witness :
    ((⟨.group, some 0, none, some 0, 0, 0⟩ : WheelState).hoveredZone = some 0) ∧
    isZoneInteractive english .group none 0 = true ∧
    (runWheel english ⟨.group, some 0, none, some 0, 0, 0⟩
      [(500, .dwell), (1000, .gaze true true (some 0)), (1500, .dwell), (1500, .dwell)]).2.2
      = [(0 + DWELL_TIME, 0)] := by
  have hgz : ∀ ti ∈ ([(500, .dwell), (1000, .gaze true true (some 0)), (1500, .dwell),
      (1500, .dwell)] : List (ℤ × WheelInput)), ∀ tr inC cand,
      ti.2 = WheelInput.gaze tr inC cand → tr = true ∧ inC = true ∧ cand = some 0 := by
    intro ti hti tr inC cand heq
    fin_cases hti <;> simp_all
  refine ⟨rfl, by decide, ?_⟩
  exact dwell_commits_exactly_once english ⟨.group, some 0, none, some 0, 0, 0⟩ 0 0
    [(500, .dwell), (1000, .gaze true true (some 0)), (1500, .dwell), (1500, .dwell)]
    rfl rfl (by decide) (by decide) (by decide) (by decide) hgz
    ⟨(1500, .dwell), by decide, rfl, by decide⟩

/-! ### Letter-assignment lookup lemmas -/

theorem lookup_zip_get (ks : List ℕ) : ∀ (vs : List String) (i : ℕ) (hnd : ks.Nodup)
    (hik : i < ks.length),
    (ks.zip vs).lookup (ks.get ⟨i, hik⟩) = vs[i]? := by
  induction ks with
  | nil =>
    intro vs i _ hik
    simp at hik
  | cons k ks ih =>
    intro vs i hnd hik
    cases vs with
    | nil => simp
    | cons v vs =>
      cases i with
      | zero => simp [List.lookup]
      | succ i =>
        have hik' : i < ks.length := by simpa using hik
        have hmem : ks.get ⟨i, hik'⟩ ∈ ks := List.get_mem ks i hik'
        have hne : ((ks.get ⟨i, hik'⟩ : ℕ) == k) = false := by
          rw [beq_eq_false_iff_ne]
          intro he
          exact (List.nodup_cons.mp hnd).1 (he ▸ hmem)
        simp only [List.zip_cons_cons, List.get_cons_succ, List.lookup, hne,
          List.getElem?_cons_succ]
        exact ih vs i (List.nodup_cons.mp hnd).2 hik'

theorem lookup_zip_none (ks : List ℕ) (vs : List String) (j : ℕ)
    (hj : j ∉ ks.take vs.length) : (ks.zip vs).lookup j = none := by
  induction ks generalizing vs with
  | nil => simp
  | cons k ks ih =>
    cases vs with
    | nil => simp
    | cons v vs =>
      simp only [List.length_cons, List.take_succ_cons, List.mem_cons, not_or] at hj
      have hne : (j == k) = false := by
        rw [beq_eq_false_iff_ne]
        exact hj.1
      simp only [List.zip_cons_cons, List.lookup, hne]
      exact ih vs hj.2

theorem lookup_zip_mem (ks : List ℕ) (vs : List String) (j : ℕ) (l : String)
    (h : (ks.zip vs).lookup j = some l) : l ∈ vs := by
  induction ks generalizing vs with
  | nil => simp at h
  | cons k ks ih =>
    cases vs with
    | nil => simp at h
    | cons v vs =>
      simp only [List.zip_cons_cons, List.lookup] at h
      cases hbeq : (j == k) with
      | false =>
        rw [hbeq] at h
        exact List.mem_cons_of_mem v (ih vs h)
      | true =>
        rw [hbeq] at h
        simp only [Option.some.injEq] at h
        subst h
        exact List.mem_cons_self v vs

theorem letterFor_get (letters : List String) (i : ℕ) (hik : i < letterZoneOrder.length) :
    letterFor letters (letterZoneOrder.get ⟨i, hik⟩) = letters[i]? := by
  rw [letterFor, letterAssignments,
    lookup_zip_get letterZoneOrder (letters.take letterZoneOrder.length) i (by decide) hik,
    List.getElem?_take, if_pos hik]

/-- Claim C6: at Group level, committing a zone other than Center and South
whose letter group is populated transitions to Letter level remembering that
zone, fires no selection event, and the letter assignments map exactly the
first letters of that group, in order, onto the fixed zone visiting order
`[7, 0, 1, 2, 3, 5, 6]` (zones outside that image carry no letter); and
committing South at Letter level returns to Group level, discards the chosen
group, and emits no selection event. -/
theorem level_transition_correct (alph : Alphabet) (s : WheelState) (now : ℤ) (z : ℕ)
    (zone : LetterZone)
    (hlv : s.selectionLevel = .group)
    (hz8 : z ≠ CENTER_INDEX) (hz4 : z ≠ SOUTH_INDEX)
    (hzz : alph.zones[z]? = some zone) (hne : zone.letters ≠ []) :
    ((handleZoneActivation alph s now (some z)).state.selectionLevel = .letter ∧
     (handleZoneActivation alph s now (some z)).state.selectedZone = some z ∧
     (handleZoneActivation alph s now (some z)).events = [] ∧
     (handleZoneActivation alph s now (some z)).committedZone = some z ∧
     (∀ i (hik : i < letterZoneOrder.length),
       letterFor (activeLettersOf alph
           (handleZoneActivation alph s now (some z)).state.selectedZone)
         (letterZoneOrder.get ⟨i, hik⟩) = zone.letters[i]?) ∧
     (∀ j, j ∉ letterZoneOrder.take (min letterZoneOrder.length zone.letters.length) →
       letterFor (activeLettersOf alph
           (handleZoneActivation alph s now (some z)).state.selectedZone) j = none)) ∧
    (∀ s' : WheelState, s'.selectionLevel = .letter →
      (handleZoneActivation alph s' now (some SOUTH_INDEX)).state.selectionLevel = .group ∧
      (handleZoneActivation alph s' now (some SOUTH_INDEX)).state.selectedZone = none ∧
      (handleZoneActivation alph s' now (some SOUTH_INDEX)).events = [] ∧
      (handleZoneActivation alph s' now (some SOUTH_INDEX)).committedZone =
        some SOUTH_INDEX) := by
  have hemp : zone.letters.isEmpty = false := by
    cases hl : zone.letters with
    | nil => exact absurd hl hne
    | cons a l => rfl
  have heval : handleZoneActivation alph s now (some z) =
      ⟨commitState { s with selectedZone := some z, selectionLevel := .letter } now,
        [], some z⟩ := by
    simp [handleZoneActivation, hlv, hz8, hz4, hzz, hemp]
  have hact : activeLettersOf alph
      (handleZoneActivation alph s now (some z)).state.selectedZone = zone.letters := by
    rw [heval]
    show activeLettersOf alph (some z) = zone.letters
    simp [activeLettersOf, hzz]
  refine ⟨⟨by rw [heval]; rfl, by rw [heval]; rfl, by rw [heval], by rw [heval], ?_, ?_⟩, ?_⟩
  · intro i hik
    rw [hact, letterFor_get]
  · intro j hj
    rw [hact, letterFor, letterAssignments]
    apply lookup_zip_none
    rwa [List.length_take]
  · intro s' hlv'
    refine ⟨?_, ?_, ?_, ?_⟩ <;>
      simp [handleZoneActivation, hlv', commitState, resetSelection,
        show SOUTH_INDEX ≠ CENTER_INDEX by rw [SOUTH_INDEX, CENTER_INDEX]; norm_num]

theorem level_transition_correct_witness :
    initWheelState.selectionLevel = .group ∧
    (0 : ℕ) ≠ CENTER_INDEX ∧ (0 : ℕ) ≠ SOUTH_INDEX ∧
    english.zones[0]? =
      some ⟨"A • B • C • D • 9", ["A", "B", "C", "D", "9"], some "Common starters"⟩ ∧
    (⟨"A • B • C • D • 9", ["A", "B", "C", "D", "9"],
      some "Common starters"⟩ : LetterZone).letters ≠ [] ∧
    (handleZoneActivation english initWheelState 0 (some 0)).state.selectionLevel = .letter ∧
    (handleZoneActivation english initWheelState 0 (some 0)).state.selectedZone = some 0 ∧
    (handleZoneActivation english initWheelState 0 (some 0)).events = [] ∧
    (∀ s' : WheelState, s'.selectionLevel = .letter →
      (handleZoneActivation english s' 0 (some SOUTH_INDEX)).state.selectionLevel = .group ∧
      (handleZoneActivation english s' 0 (some SOUTH_INDEX)).state.selectedZone = none ∧
      (handleZoneActivation english s' 0 (some SOUTH_INDEX)).events = [] ∧
      (handleZoneActivation english s' 0 (some SOUTH_INDEX)).committedZone =
        some SOUTH_INDEX) := by
  have h := level_transition_correct english initWheelState 0 0
    ⟨"A • B • C • D • 9", ["A", "B", "C", "D", "9"], some "Common starters"⟩
    rfl (by decide) (by decide) rfl (by decide)
  exact ⟨rfl, by decide, by decide, rfl, by decide, h.1.1, h.1.2.1, h.1.2.2.1, h.2⟩

/-! ### Letter-level invariant (C10) -/

theorem LetterLevelInv_of_fields (alph : Alphabet) (s s' : WheelState)
    (hl : s'.selectionLevel = s.selectionLevel) (hz : s'.selectedZone = s.selectedZone)
    (h : LetterLevelInv alph s) : LetterLevelInv alph s' := by
  intro hlev
  obtain ⟨z, zone, hsz, hzz, hne⟩ := h (hl.symm.trans hlev)
  exact ⟨z, zone, hz.trans hsz, hzz, hne⟩

theorem gazeTick_fields (s : WheelState) (now : ℤ) (tr inC : Bool) (cand : Option ℕ) :
    (gazeTick s now tr inC cand).selectionLevel = s.selectionLevel ∧
    (gazeTick s now tr inC cand).selectedZone = s.selectedZone := by
  unfold gazeTick clearHover
  repeat' split
  all_goals exact ⟨rfl, rfl⟩

theorem handleZoneActivation_inv (alph : Alphabet) (s : WheelState) (now : ℤ)
    (zi : Option ℕ) (hinv : LetterLevelInv alph s) :
    LetterLevelInv alph (handleZoneActivation alph s now zi).state := by
  rcases zi with _ | z
  · exact hinv
  · cases hsl : s.selectionLevel
    · by_cases hz8 : z = CENTER_INDEX
      · subst hz8
        intro hlev
        simp [handleZoneActivation, hsl, commitState, resetSelection] at hlev
      · by_cases hz4 : z = SOUTH_INDEX
        · subst hz4
          intro hlev
          simp [handleZoneActivation, hsl, commitState,
            show SOUTH_INDEX ≠ CENTER_INDEX by rw [SOUTH_INDEX, CENTER_INDEX]; norm_num]
            at hlev
        · rcases hzz : alph.zones[z]? with _ | zone
          · have heval : handleZoneActivation alph s now (some z) = ⟨s, [], none⟩ := by
              simp [handleZoneActivation, hsl, hz8, hz4, hzz]
            rw [heval]
            exact hinv
          · by_cases hemp : zone.letters.isEmpty
            · have heval : handleZoneActivation alph s now (some z) = ⟨s, [], none⟩ := by
                simp [handleZoneActivation, hsl, hz8, hz4, hzz, hemp]
              rw [heval]
              exact hinv
            · have heval : handleZoneActivation alph s now (some z) =
                  ⟨commitState
                      { s with selectedZone := some z, selectionLevel := .letter } now,
                    [], some z⟩ := by
                simp [handleZoneActivation, hsl, hz8, hz4, hzz, hemp]
              rw [heval]
              intro _
              exact ⟨z, zone, rfl, hzz, by
                intro hl
                rw [hl] at hemp
                simp at hemp⟩
    · by_cases hz8 : z = CENTER_INDEX
      · subst hz8
        intro hlev
        simp [handleZoneActivation, hsl, commitState, resetSelection] at hlev
      · by_cases hz4 : z = SOUTH_INDEX
        · subst hz4
          intro hlev
          simp [handleZoneActivation, hsl, commitState, resetSelection,
            show SOUTH_INDEX ≠ CENTER_INDEX by rw [SOUTH_INDEX, CENTER_INDEX]; norm_num]
            at hlev
        · rcases hlf : letterFor (activeLettersOf alph s.selectedZone) z with _ | letter
          · have heval : handleZoneActivation alph s now (some z) = ⟨s, [], none⟩ := by
              simp [handleZoneActivation, hsl, hz8, hz4, hlf]
            rw [heval]
            exact hinv
          · intro hlev
            simp [handleZoneActivation, hsl, hz8, hz4, hlf, commitState, resetSelection]
              at hlev

theorem dwellTick_inv (alph : Alphabet) (s : WheelState) (now : ℤ)
    (hinv : LetterLevelInv alph s) :
    LetterLevelInv alph (dwellTick alph s now).state := by
  rcases hh : s.hoveredZone with _ | w <;> rcases hd : s.dwellStartTime with _ | st <;>
    simp only [dwellTick, hh, hd]
  · exact LetterLevelInv_of_fields alph s _ rfl rfl hinv
  · exact LetterLevelInv_of_fields alph s _ rfl rfl hinv
  · exact LetterLevelInv_of_fields alph s _ rfl rfl hinv
  · split
    · exact LetterLevelInv_of_fields alph s _ rfl rfl hinv
    · split
      · exact handleZoneActivation_inv alph s now (some w) hinv
      · exact LetterLevelInv_of_fields alph s _ rfl rfl hinv

/-- Claim C10 (implicit): whenever the selection level is Letter, the
remembered selected zone is non-null and denotes an existing letter group
with at least one letter; this invariant is preserved by every zone
activation (group commit, letter commit, back, submit, space), by every gaze
tick and by every dwell tick; and every zone interactive at Letter level is
Center, South, or a zone carrying a letter of the selected group. -/
theorem letter_level_invariant (alph : Alphabet) (s : WheelState)
    (hinv : LetterLevelInv alph s) :
    (∀ now zi, LetterLevelInv alph (handleZoneActivation alph s now zi).state) ∧
    (∀ now tr inC cand, LetterLevelInv alph (gazeTick s now tr inC cand)) ∧
    (∀ now, LetterLevelInv alph (dwellTick alph s now).state) ∧
    (∀ i, s.selectionLevel = .letter →
      isZoneInteractive alph s.selectionLevel s.selectedZone i = true →
      i = CENTER_INDEX ∨ i = SOUTH_INDEX ∨
      ∃ z zone l, s.selectedZone = some z ∧ alph.zones[z]? = some zone ∧
        letterFor zone.letters i = some l ∧ l ∈ zone.letters) := by
  refine ⟨fun now zi => handleZoneActivation_inv alph s now zi hinv,
    fun now tr inC cand => LetterLevelInv_of_fields alph s _
      (gazeTick_fields s now tr inC cand).1 (gazeTick_fields s now tr inC cand).2 hinv,
    fun now => dwellTick_inv alph s now hinv,
    fun i hlev hi => ?_⟩
  by_cases h8 : i = CENTER_INDEX
  · exact Or.inl h8
  by_cases h4 : i = SOUTH_INDEX
  · exact Or.inr (Or.inl h4)
  right
  right
  obtain ⟨z, zone, hsz, hzz, hne⟩ := hinv hlev
  rw [isZoneInteractive.eq_def, if_neg (not_or.mpr ⟨h8, h4⟩), hlev] at hi
  have hal : activeLettersOf alph s.selectedZone = zone.letters := by
    rw [hsz]
    simp [activeLettersOf, hzz]
  rw [hal] at hi
  obtain ⟨l, hl⟩ := Option.isSome_iff_exists.mp hi
  refine ⟨z, zone, l, hsz, hzz, hl, ?_⟩
  have := lookup_zip_mem letterZoneOrder (zone.letters.take letterZoneOrder.length) i l
    (by rwa [letterFor, letterAssignments] at hl)
  exact List.mem_of_mem_take this

theorem letter_level_invariant_witness :
    LetterLevelInv english ⟨.letter, none, some 0, none, 0, 0⟩ ∧
    LetterLevelInv english
      (handleZoneActivation english ⟨.letter, none, some 0, none, 0, 0⟩ 5 (some 7)).state ∧
    LetterLevelInv english (gazeTick ⟨.letter, none, some 0, none, 0, 0⟩ 5 true true (some 7)) ∧
    LetterLevelInv english (dwellTick english ⟨.letter, none, some 0, none, 0, 0⟩ 5).state := by
  have hinv : LetterLevelInv english ⟨.letter, none, some 0, none, 0, 0⟩ := by
    intro _
    exact ⟨0, ⟨"A • B • C • D • 9", ["A", "B", "C", "D", "9"], some "Common starters"⟩,
      rfl, rfl, by decide⟩
  have h := letter_level_invariant english ⟨.letter, none, some 0, none, 0, 0⟩ hinv
  exact ⟨hinv, h.1 5 (some 7), h.2.1 5 true true (some 7), h.2.2.1 5⟩
